import Mathlib

/-!
# nanodi: a shallow embedding of the resolution engine

The Go package `nanodi` (file `nanodi.go`) is embedded as follows.

* A Go value of type `interface{}` is a `Value`: either an object of the
  client's own universe `α`, or a `[]interface{}` slice of such values (the
  only dynamic type the engine itself inspects, in `built.([]interface{})`).
* A construction function (`BuilderFn`) is a tree of calls on the `Provider`
  it receives: it returns `(v, nil)`, returns a non-nil error, panics, or
  calls `GetService` / `GetServices` and continues with the answer.
* `panic` is an explicit outcome; the `defer` of `GetService` and
  `GetServices` is the function `deferPop`, applied on every exit path.
* The mutually recursive `GetService` / `GetServices` carry a recursion
  budget (`fuel`); running out of it is a separate outcome, never a panic.
* Every call of `Build` on a registered builder is recorded in a log of
  `Invocation`s, which is what "the construction function is invoked" means.
-/

namespace nanodi

/-- Go values of static type `interface{}`. -/
inductive Value (α : Type) where
  | obj (a : α)
  | slice (items : List (Value α))

/-- The values a `panic` of this package carries: the package's own string
messages and the three run-time errors its statements can raise. -/
inductive PanicValue where
  | msg (s : String)
  | typeAssertion
  | indexOutOfRange
  | sliceBounds
  deriving DecidableEq, Repr

/-- Go `type BuilderOptions struct { IsShared bool }`. -/
structure BuilderOptions where
  IsShared : Bool
  deriving DecidableEq, Repr

/-- Go `type BuilderFn func(provider Provider) (interface{}, error)`, as the
tree of `Provider` calls the function makes. -/
inductive BuilderFn (α : Type) where
  | ret (v : Value α)
  | fail (err : String)
  | abort (p : PanicValue)
  | getService (name : String) (k : Value α → BuilderFn α)
  | getServices (name : String) (k : List (Value α) → BuilderFn α)

/-- Go `type builder struct { name; fn; options }`. -/
structure builder (α : Type) where
  name : String
  fn : BuilderFn α
  options : BuilderOptions

/-- Go `type Builder interface`, implemented by `builder`. -/
abbrev Builder (α : Type) := builder α

/-- Go `type buildContext struct { builders; built; buildStack }`. -/
structure buildContext (α : Type) where
  builders : String → Option (List (Builder α))
  built : String → Option (Value α)
  buildStack : List String

/-- One call of `Build` on the `index`-th builder registered under `name`. -/
structure Invocation where
  name : String
  index : Nat
  deriving DecidableEq, Repr

/-- How a call ends: a returned value, a panic, or an exhausted budget. -/
inductive Outcome (β : Type) where
  | ok (v : β)
  | panic (p : PanicValue)
  | outOfFuel
  deriving DecidableEq, Repr

/-- The result of a call: its outcome, the context it leaves behind, and the
builder invocations it made, in order. -/
structure Res (α β : Type) where
  out : Outcome β
  ctx : buildContext α
  log : List Invocation

/-- Sequencing: a panic (or an exhausted budget) skips the continuation. -/
def Res.bind {α β γ : Type} (r : Res α β) (f : β → buildContext α → Res α γ) : Res α γ :=
  match r.out with
  | .ok v => ⟨(f v r.ctx).out, (f v r.ctx).ctx, r.log ++ (f v r.ctx).log⟩
  | .panic p => ⟨.panic p, r.ctx, r.log⟩
  | .outOfFuel => ⟨.outOfFuel, r.ctx, r.log⟩

/-- Go `NewBuilder`. -/
def NewBuilder {α : Type} (name : String) (fn : BuilderFn α) : Builder α :=
  { name := name, fn := fn, options := { IsShared := true } }

/-- Go `NewBuilderWithOptions`. -/
def NewBuilderWithOptions {α : Type} (name : String) (fn : BuilderFn α)
    (options : BuilderOptions) : Builder α :=
  { name := name, fn := fn, options := options }

/-- Go `(*builder).CommandName`. -/
def builder.CommandName {α : Type} (b : builder α) : String := b.name

/-- Go `(*builder).Options`. -/
def builder.Options {α : Type} (b : builder α) : BuilderOptions := b.options

/-- Go `builderMap[name] = append(builderMap[name], builder)`. -/
def appendBuilder {α : Type} (builderMap : String → Option (List (Builder α)))
    (b : Builder α) : String → Option (List (Builder α)) :=
  fun n => if n = b.CommandName then some ((builderMap b.CommandName).getD [] ++ [b])
    else builderMap n

/-- Go `newBuildContext`. -/
def newBuildContext {α : Type} (builders : List (Builder α)) : buildContext α :=
  { builders := builders.foldl appendBuilder (fun _ => none)
    built := fun _ => none
    buildStack := [] }

/-- Go `Assemble`. -/
def Assemble {α : Type} (builders : List (Builder α)) : buildContext α :=
  newBuildContext builders

/-- Go `(*buildContext).isInBuildStack`. -/
def isInBuildStackLoop (name : String) : List String → Bool
  | [] => false
  | dep :: rest => if dep = name then true else isInBuildStackLoop name rest

/-- Go `(*buildContext).isInBuildStack`. -/
def buildContext.isInBuildStack {α : Type} (c : buildContext α) (name : String) : Bool :=
  isInBuildStackLoop name c.buildStack

/-- The string `panicCircular` passes to `panic`. -/
def circularMessage (buildStack : List String) (offendingDep : String) : String :=
  "circular dependency detected: " ++
    (buildStack.foldl (fun strBuilder dep => strBuilder ++ dep ++ " > ") "" ++ offendingDep)

/-- Go `(*buildContext).panicCircular`. -/
def buildContext.panicCircular {α : Type} (c : buildContext α) (offendingDep : String) :
    PanicValue :=
  .msg (circularMessage c.buildStack offendingDep)

/-- Go `c.buildStack = append(c.buildStack, name)`. -/
def buildContext.push {α : Type} (c : buildContext α) (name : String) : buildContext α :=
  { c with buildStack := c.buildStack ++ [name] }

/-- Go `c.built[name] = v`. -/
def buildContext.store {α : Type} (c : buildContext α) (name : String) (v : Value α) :
    buildContext α :=
  { c with built := fun n => if n = name then some v else c.built n }

/-- The deferred `c.buildStack = c.buildStack[:len(c.buildStack)-1]`, run on
every exit path; on an empty stack the slice expression itself panics. -/
def deferPop {α β : Type} (r : Res α β) : Res α β :=
  match r.ctx.buildStack with
  | [] => ⟨.panic .sliceBounds, r.ctx, r.log⟩
  | _ :: _ => ⟨r.out, { r.ctx with buildStack := r.ctx.buildStack.dropLast }, r.log⟩

/-- Go `type Provider interface { GetService; GetServices }`: the two methods
a construction function may call, acting on the context they are given. -/
structure Provider (α : Type) where
  GetService : buildContext α → String → Res α (Value α)
  GetServices : buildContext α → String → Res α (List (Value α))

/-- Running the body of a construction function against a provider. The
result is the pair `(interface{}, error)` of the Go function. -/
def BuilderFn.run {α : Type} (p : Provider α) :
    BuilderFn α → buildContext α → Res α (Except String (Value α))
  | .ret v, c => ⟨.ok (.ok v), c, []⟩
  | .fail err, c => ⟨.ok (.error err), c, []⟩
  | .abort pv, c => ⟨.panic pv, c, []⟩
  | .getService name k, c => (p.GetService c name).bind (fun v c1 => BuilderFn.run p (k v) c1)
  | .getServices name k, c => (p.GetServices c name).bind (fun vs c1 => BuilderFn.run p (k vs) c1)

/-- Go `(*builder).Build`: `return b.fn(provider)`. -/
def builder.Build {α : Type} (b : builder α) (p : Provider α) (c : buildContext α) :
    Res α (Except String (Value α)) :=
  b.fn.run p c

/-- The call `builder.Build(c)` made on the `index`-th builder found under
`name`, with that invocation recorded in front of what the call itself logs. -/
def invoke {α : Type} (name : String) (index : Nat) (b : Builder α) (p : Provider α)
    (c : buildContext α) : Res α (Except String (Value α)) :=
  ⟨(b.Build p c).out, (b.Build p c).ctx, ⟨name, index⟩ :: (b.Build p c).log⟩

/-- The `for i, builder := range builders` loop of `GetServices`, from index
`i` on. -/
def buildEach {α : Type} (p : Provider α) (name : String) :
    Nat → List (Builder α) → buildContext α → Res α (List (Value α))
  | _, [], c => ⟨.ok [], c, []⟩
  | i, b :: rest, c =>
    (invoke name i b p c).bind (fun r c1 =>
      match r with
      | .error _ => ⟨.panic (.msg "failed to build service"), c1, []⟩
      | .ok built =>
        (buildEach p name (i + 1) rest c1).bind (fun vs c2 => ⟨.ok (built :: vs), c2, []⟩))

mutual
/-- Go `(*buildContext).GetService`. -/
def GetService {α : Type} : Nat → buildContext α → String → Res α (Value α)
  | 0, c, _ => ⟨.outOfFuel, c, []⟩
  | fuel + 1, c, name =>
    if c.isInBuildStack name then ⟨.panic (c.panicCircular name), c, []⟩
    else deferPop (
      match (c.push name).built name with
      | some built => ⟨.ok built, c.push name, []⟩
      | none =>
        match (c.push name).builders name with
        | none => ⟨.panic (.msg "builder does not exist for the type"), c.push name, []⟩
        | some builders =>
          if builders.length > 1 then
            ⟨.panic (.msg "ambiguous: several builders for the type"), c.push name, []⟩
          else
            match builders with
            | [] => ⟨.panic .indexOutOfRange, c.push name, []⟩
            | b :: _ =>
              (invoke name 0 b ⟨GetService fuel, GetServices fuel⟩ (c.push name)).bind
                (fun r c1 =>
                  match r with
                  | .error _ => ⟨.panic (.msg "failed to build service"), c1, []⟩
                  | .ok built =>
                    if b.Options.IsShared then ⟨.ok built, c1.store name built, []⟩
                    else ⟨.ok built, c1, []⟩))
/-- Go `(*buildContext).GetServices`. -/
def GetServices {α : Type} : Nat → buildContext α → String → Res α (List (Value α))
  | 0, c, _ => ⟨.outOfFuel, c, []⟩
  | fuel + 1, c, name =>
    if c.isInBuildStack name then ⟨.panic (c.panicCircular name), c, []⟩
    else deferPop (
      match (c.push name).built name with
      | some (.slice items) => ⟨.ok items, c.push name, []⟩
      | some (.obj _) => ⟨.panic .typeAssertion, c.push name, []⟩
      | none =>
        match (c.push name).builders name with
        | none => ⟨.ok [], c.push name, []⟩
        | some builders =>
          (buildEach ⟨GetService fuel, GetServices fuel⟩ name 0 builders (c.push name)).bind
            (fun result c1 => ⟨.ok result, c1.store name (.slice result), []⟩))
end

/-- The provider a construction function receives when `fuel` levels of
nesting remain: the context's own two methods. -/
def provider {α : Type} (fuel : Nat) : Provider α :=
  ⟨GetService fuel, GetServices fuel⟩

/-- What a run may do to a context, relative to a set `S` of protected names:
the registry and the stack are as before, cache entries are only added, only
under names outside `S` that have a registry entry, and the builders invoked
are found under names outside `S`. -/
structure FrameOn {α : Type} (S : List String) (c c1 : buildContext α)
    (log : List Invocation) : Prop where
  builders_eq : c1.builders = c.builders
  stack_eq : c1.buildStack = c.buildStack
  built_mono : ∀ m v, c.built m = some v → c1.built m = some v
  built_new : ∀ m, c.built m = none → c1.built m ≠ none → m ∉ S ∧ c.builders m ≠ none
  log_off : ∀ e ∈ log, e.name ∉ S

/-- What a call may do to the context it is given: `FrameOn`, the protected
names being those on the dependency stack at the call. -/
def Frame {α : Type} (c c1 : buildContext α) (log : List Invocation) : Prop :=
  FrameOn c.buildStack c c1 log

/-- Both methods of a provider respect `Frame`. -/
def Provider.Framed {α : Type} (p : Provider α) : Prop :=
  (∀ c n, Frame c (p.GetService c n).ctx (p.GetService c n).log) ∧
  (∀ c n, Frame c (p.GetServices c n).ctx (p.GetServices c n).log)

/-- The builders registered under `name`, in registration order (none when
the registry has no entry). -/
def buildContext.registered {α : Type} (c : buildContext α) (name : String) :
    List (Builder α) :=
  (c.builders name).getD []

/-- The contexts that exist: the one `Assemble` returns, those left behind by
a call of either method on such a context (whatever its outcome), and those
in which a construction function runs, i.e. an existing context with the
requested name pushed, after a cache miss on a registered name. -/
inductive Reachable {α : Type} : buildContext α → Prop where
  | assemble (bs : List (Builder α)) : Reachable (Assemble bs)
  | getService (fuel : Nat) (c : buildContext α) (name : String) :
      Reachable c → Reachable (GetService fuel c name).ctx
  | getServices (fuel : Nat) (c : buildContext α) (name : String) :
      Reachable c → Reachable (GetServices fuel c name).ctx
  | enter (c : buildContext α) (name : String) :
      Reachable c → name ∉ c.buildStack → c.built name = none → c.builders name ≠ none →
      Reachable (c.push name)

/-- The registry has no empty entry and the cache holds entries for
registered names only. -/
def WellFormed {α : Type} (c : buildContext α) : Prop :=
  (∀ n bs, c.builders n = some bs → bs ≠ []) ∧ (∀ n, c.built n ≠ none → c.builders n ≠ none)

/-- The context `c` with its dependency stack set to `stack`. -/
def buildContext.withStack {α : Type} (c : buildContext α) (stack : List String) :
    buildContext α :=
  { c with buildStack := stack }

/-- The results of the successive calls `builder.Build(c)` of the loop of
`GetServices`, each made in the context its predecessor left. -/
def buildRuns {α : Type} (p : Provider α) :
    List (Builder α) → buildContext α → List (Res α (Except String (Value α)))
  | [], _ => []
  | b :: rest, c => b.Build p c :: buildRuns p rest (b.Build p c).ctx

/-- The value a construction function returned, when it returned one with a
nil error. -/
def Res.returned {α : Type} (r : Res α (Except String (Value α))) : Option (Value α) :=
  match r.out with
  | .ok (.ok v) => some v
  | _ => none

/-! ### The registries of `nanodi_test.go` -/

/-- The implementation types of the test file. -/
inductive TestObj where
  | controllerImpl (appService : TestObj)
  | appServiceImpl (domainService : TestObj)
  | domainServiceImpl (domainObjectA domainObjectB : TestObj)
  | domainObjectAImpl
  | domainObjectBImpl
  | collectionItemImpl (domainValue : Int)
  | collectionUserImpl (items : List TestObj)

mutual
/-- The method `DomainValue` of the test types. -/
def TestObj.DomainValue : TestObj → Int
  | .controllerImpl appService => appService.DomainValue
  | .appServiceImpl domainService => domainService.DomainValue
  | .domainServiceImpl domainObjectA domainObjectB =>
    domainObjectA.DomainValue + domainObjectB.DomainValue
  | .domainObjectAImpl => 2
  | .domainObjectBImpl => 3
  | .collectionItemImpl domainValue => domainValue
  | .collectionUserImpl items => sumDomainValues items
/-- The loop of `(*collectionUserImpl).DomainValue`. -/
def sumDomainValues : List TestObj → Int
  | [] => 0
  | item :: rest => item.DomainValue + sumDomainValues rest
end

/-- The type assertion `v.(T)` on an interface type `T` of the test file: every
test object has the method `DomainValue`, a `[]interface{}` has not. -/
def assertObj (v : Value TestObj) (k : TestObj → BuilderFn TestObj) : BuilderFn TestObj :=
  match v with
  | .obj a => k a
  | .slice _ => .abort .typeAssertion

/-- The loop `typedItems[i] = untypedItem.(collectionItem)`; `none` when an
assertion fails. -/
def assertEach : List (Value TestObj) → Option (List TestObj)
  | [] => some []
  | .obj a :: rest => (assertEach rest).map (fun items => a :: items)
  | .slice _ :: _ => none

/-- The builders of `TestAssemble`. -/
def testAssembleBuilders : List (Builder TestObj) :=
  [ NewBuilder "controller" (.getService "appService" fun v =>
      assertObj v fun appService => .ret (.obj (.controllerImpl appService))),
    NewBuilder "appService" (.getService "domainService" fun v =>
      assertObj v fun domainService => .ret (.obj (.appServiceImpl domainService))),
    NewBuilder "domainService" (.getService "domainObjectA" fun va =>
      assertObj va fun domainObjectA => .getService "domainObjectB" fun vb =>
        assertObj vb fun domainObjectB =>
          .ret (.obj (.domainServiceImpl domainObjectA domainObjectB))),
    NewBuilder "domainObjectA" (.ret (.obj .domainObjectAImpl)),
    NewBuilder "domainObjectB" (.ret (.obj .domainObjectBImpl)) ]

/-- The builders of `TestDependencyCollection`. -/
def testCollectionBuilders : List (Builder TestObj) :=
  [ NewBuilder "collectionUser" (.getServices "collectionItem" fun untypedItems =>
      match assertEach untypedItems with
      | some typedItems => .ret (.obj (.collectionUserImpl typedItems))
      | none => .abort .typeAssertion),
    NewBuilder "collectionItem" (.ret (.obj (.collectionItemImpl 2))),
    NewBuilder "collectionItem" (.ret (.obj (.collectionItemImpl 3))) ]

/-- `root.DomainValue()` of a returned service, as the tests compute it. -/
def domainResult : Outcome (Value TestObj) → Option Int
  | .ok (.obj a) => some a.DomainValue
  | _ => none

/-- The value a panic carries, if the call panicked. -/
def Outcome.panicValue {β : Type} : Outcome β → Option PanicValue
  | .panic pv => some pv
  | _ => none

/-- Two services whose construction functions return an error. -/
def failingBuilders : List (Builder TestObj) :=
  [ NewBuilder "serviceA" (.fail "cannot build A"),
    NewBuilder "serviceB" (.fail "cannot build B") ]

/-- A registry with one non-shared service. -/
def nonSharedBuilders : List (Builder TestObj) :=
  [ NewBuilderWithOptions "perRequest" (.ret (.obj .domainObjectAImpl)) { IsShared := false } ]

/-- The construction function of the single builder registered under `n`
begins by calling `GetService(m)`. -/
def FirstRequests {α : Type} (registry : String → Option (List (Builder α)))
    (n m : String) : Prop :=
  ∃ b k, registry n = some [b] ∧ b.fn = .getService m k

/-- Each name of the list first requests the next one, and the last name
first requests `first`. -/
def RequestChain {α : Type} (registry : String → Option (List (Builder α)))
    (first : String) : List String → Prop
  | [] => True
  | [n] => FirstRequests registry n first
  | n :: m :: rest => FirstRequests registry n m ∧ RequestChain registry first (m :: rest)

/-- The builders of a cycle `A -> B -> C -> A`. -/
def cycleBuilders : List (Builder TestObj) :=
  [ NewBuilder "A" (.getService "B" fun v => .ret v),
    NewBuilder "B" (.getService "C" fun v => .ret v),
    NewBuilder "C" (.getService "A" fun v => .ret v) ]

/-! ### The reference recursion of the specification -/

/-- Reference evaluation of a construction function against a table of
answers: `GetService(m)` is answered by `answer m`; a returned error, a panic,
an unanswered request and a `GetServices` request leave the value undefined. -/
def BuilderFn.eval {α : Type} (answer : String → Option (Value α)) :
    BuilderFn α → Option (Value α)
  | .ret v => some v
  | .fail _ => none
  | .abort _ => none
  | .getService m k =>
    match answer m with
    | some v => BuilderFn.eval answer (k v)
    | none => none
  | .getServices _ _ => none

/-- The reference recursion `resolve(n) = fn_n(provider answering resolve(m)
for each requested m)` of the specification, unfolded `depth` levels deep; it
has no cache and no stack. -/
def resolve {α : Type} (bs : List (Builder α)) : Nat → String → Option (Value α)
  | 0, _ => none
  | depth + 1, n =>
    match bs.find? (fun b => b.CommandName = n) with
    | some b => b.fn.eval (resolve bs depth)
    | none => none

/-- A construction function that, whatever it is answered, ends by returning a
value and on the way calls only `GetService`, only with names that satisfy
`allowed`. -/
inductive BuilderFn.CallsOnly {α : Type} (allowed : String → Prop) : BuilderFn α → Prop where
  | ret (v : Value α) : BuilderFn.CallsOnly allowed (.ret v)
  | getService (m : String) (k : Value α → BuilderFn α) :
      allowed m → (∀ v, BuilderFn.CallsOnly allowed (k v)) →
      BuilderFn.CallsOnly allowed (.getService m k)

/-- Every cache entry is the value the reference recursion defines. -/
def CacheAgrees {α : Type} (bs : List (Builder α)) (c : buildContext α) : Prop :=
  ∀ m w, c.built m = some w → ∃ d, resolve bs d m = some w

/-- A two-layer registry whose construction functions make no type
assertion: `service` wraps what `repository` returns. -/
def layeredBuilders : List (Builder TestObj) :=
  [ NewBuilder "service" (.getService "repository" fun v => .ret (.slice [v])),
    NewBuilder "repository" (.ret (.obj .domainObjectAImpl)) ]

/-- A rank along which the requests of `layeredBuilders` descend. -/
def layeredRank (n : String) : Nat :=
  if n = "service" then 1 else 0

/-! ### `CombineBuilders` -/

/-- Go `combined[index] = inner` on the slice `make` returned, whose unwritten
elements are nil (`none`); the result is `none` when `index` is out of range,
where the Go statement panics. -/
def setIndex {α : Type} (combined : List (Option (Builder α))) (index : Nat)
    (inner : Builder α) : Option (List (Option (Builder α))) :=
  if index < combined.length then some (combined.set index (some inner)) else none

/-- The loop `for _, inner := range outer` of `CombineBuilders`, on the pair
`(combined, index)`. -/
def copyInner {α : Type} :
    List (Builder α) → List (Option (Builder α)) × Nat →
      Option (List (Option (Builder α)) × Nat)
  | [], st => some st
  | inner :: rest, (combined, index) =>
    match setIndex combined index inner with
    | none => none
    | some combined1 => copyInner rest (combined1, index + 1)

/-- The second loop `for _, outer := range builders` of `CombineBuilders`. -/
def copyOuter {α : Type} :
    List (List (Builder α)) → List (Option (Builder α)) × Nat →
      Option (List (Option (Builder α)) × Nat)
  | [], st => some st
  | outer :: rest, st =>
    match copyInner outer st with
    | none => none
    | some st1 => copyOuter rest st1

/-- Go `CombineBuilders`: `none` if a write of the copy loop is out of range. -/
def CombineBuilders {α : Type} (builders : List (List (Builder α))) :
    Option (List (Option (Builder α))) :=
  (copyOuter builders
    (List.replicate (builders.foldl (fun count outer => count + outer.length) 0) none, 0)).map
    (fun st => st.1)

/-! ### The statements between push and pop -/

/-- The statements of `GetService` after the push, on the context `c` that has
`name` pushed; the deferred pop receives their result. -/
def getServiceBody {α : Type} (p : Provider α) (c : buildContext α) (name : String) :
    Res α (Value α) :=
  match c.built name with
  | some built => ⟨.ok built, c, []⟩
  | none =>
    match c.builders name with
    | none => ⟨.panic (.msg "builder does not exist for the type"), c, []⟩
    | some builders =>
      if builders.length > 1 then
        ⟨.panic (.msg "ambiguous: several builders for the type"), c, []⟩
      else
        match builders with
        | [] => ⟨.panic .indexOutOfRange, c, []⟩
        | b :: _ =>
          (invoke name 0 b p c).bind (fun r c1 =>
            match r with
            | .error _ => ⟨.panic (.msg "failed to build service"), c1, []⟩
            | .ok built =>
              if b.Options.IsShared then ⟨.ok built, c1.store name built, []⟩
              else ⟨.ok built, c1, []⟩)

/-- The statements of `GetServices` after the push, on the context `c` that
has `name` pushed. -/
def getServicesBody {α : Type} (p : Provider α) (c : buildContext α) (name : String) :
    Res α (List (Value α)) :=
  match c.built name with
  | some (.slice items) => ⟨.ok items, c, []⟩
  | some (.obj _) => ⟨.panic .typeAssertion, c, []⟩
  | none =>
    match c.builders name with
    | none => ⟨.ok [], c, []⟩
    | some builders =>
      (buildEach p name 0 builders c).bind
        (fun result c1 => ⟨.ok result, c1.store name (.slice result), []⟩)

/-- The contexts a construction function finds while it runs: the one it
starts in and, after each provider call that returns, the one that call
left. -/
def BuilderFn.seen {α : Type} (p : Provider α) :
    BuilderFn α → buildContext α → List (buildContext α)
  | .ret _, c => [c]
  | .fail _, c => [c]
  | .abort _, c => [c]
  | .getService name k, c =>
    c :: match (p.GetService c name).out with
      | .ok v => BuilderFn.seen p (k v) (p.GetService c name).ctx
      | _ => []
  | .getServices name k, c =>
    c :: match (p.GetServices c name).out with
      | .ok vs => BuilderFn.seen p (k vs) (p.GetServices c name).ctx
      | _ => []

/-- The contexts the construction functions of the loop of `GetServices` find
while they run, builder after builder. -/
def seenEach {α : Type} (p : Provider α) :
    List (Builder α) → buildContext α → List (buildContext α)
  | [], _ => []
  | b :: rest, c => b.fn.seen p c ++ seenEach p rest (b.Build p c).ctx

/-- Two builders under one name, the second of which returns an error. -/
def partlyFailingBuilders : List (Builder TestObj) :=
  [ NewBuilder "item" (.ret (.obj (.collectionItemImpl 2))),
    NewBuilder "item" (.fail "cannot build the second item") ]

/-- The contexts that come after `c`: `c` itself, the context a call of either
method leaves, and the contexts the steps of a call in progress lead to: the
push on entering, the store after a cache miss, the deferred pop. -/
inductive After {α : Type} (c : buildContext α) : buildContext α → Prop where
  | refl : After c c
  | getService (fuel : Nat) (c1 : buildContext α) (name : String) :
      After c c1 → After c (GetService fuel c1 name).ctx
  | getServices (fuel : Nat) (c1 : buildContext α) (name : String) :
      After c c1 → After c (GetServices fuel c1 name).ctx
  | push (c1 : buildContext α) (name : String) : After c c1 → After c (c1.push name)
  | store (c1 : buildContext α) (name : String) (v : Value α) :
      After c c1 → c1.built name = none → After c (c1.store name v)
  | pop (c1 : buildContext α) : After c c1 → After c (c1.withStack c1.buildStack.dropLast)

/-- Two builders under one name, both non-shared. -/
def nonSharedItems : List (Builder TestObj) :=
  [ NewBuilderWithOptions "item" (.ret (.obj (.collectionItemImpl 2))) { IsShared := false },
    NewBuilderWithOptions "item" (.ret (.obj (.collectionItemImpl 3))) { IsShared := false } ]

/-- Every state a context passes through: the contexts that exist, and the
state right after the push of a call made on one of them; the push comes
before the cache and the registry are looked at, so the pushed name is any
name that is off the stack. -/
inductive Visited {α : Type} : buildContext α → Prop where
  | reachable (c : buildContext α) : Reachable c → Visited c
  | pushed (c : buildContext α) (name : String) :
      Reachable c → name ∉ c.buildStack → Visited (c.push name)

/-- The stack holds no name twice, holds names of `names` only, and so does the
registry. -/
def StackWithin {α : Type} (names : List String) (c : buildContext α) : Prop :=
  c.buildStack.Nodup ∧ (∀ s ∈ c.buildStack, s ∈ names) ∧ (∀ n, c.builders n ≠ none → n ∈ names)

/-! ## Theorems -/

theorem isInBuildStackLoop_iff (name : String) (stack : List String) :
    isInBuildStackLoop name stack = true ↔ name ∈ stack := by
  induction stack with
  | nil => simp [isInBuildStackLoop]
  | cons dep rest ih =>
    by_cases h : dep = name
    · simp [isInBuildStackLoop, h]
    · have h2 : ¬ name = dep := fun e => h e.symm
      simp [isInBuildStackLoop, h, h2, ih]

theorem isInBuildStack_iff {α : Type} (c : buildContext α) (name : String) :
    c.isInBuildStack name = true ↔ name ∈ c.buildStack :=
  isInBuildStackLoop_iff name c.buildStack

theorem FrameOn.refl {α : Type} (S : List String) (c : buildContext α) : FrameOn S c c [] :=
  ⟨rfl, rfl, fun _ _ h => h, fun _ h h1 => absurd h h1, fun _ h => by simp at h⟩

theorem FrameOn.trans {α : Type} {S : List String} {c c1 c2 : buildContext α}
    {l1 l2 : List Invocation} (h1 : FrameOn S c c1 l1) (h2 : FrameOn S c1 c2 l2) :
    FrameOn S c c2 (l1 ++ l2) where
  builders_eq := h2.builders_eq.trans h1.builders_eq
  stack_eq := h2.stack_eq.trans h1.stack_eq
  built_mono := fun m v h => h2.built_mono m v (h1.built_mono m v h)
  built_new := by
    intro m hm hm2
    cases hc1 : c1.built m with
    | none =>
      have := h2.built_new m hc1 hm2
      rw [h1.builders_eq] at this
      exact this
    | some v => exact h1.built_new m hm (by simp [hc1])
  log_off := by
    intro e he
    rcases List.mem_append.mp he with h | h
    · exact h1.log_off e h
    · exact h2.log_off e h

theorem FrameOn.weaken {α : Type} {S T : List String} {c c1 : buildContext α}
    {l : List Invocation} (h : FrameOn S c c1 l) (hTS : ∀ x ∈ T, x ∈ S) : FrameOn T c c1 l where
  builders_eq := h.builders_eq
  stack_eq := h.stack_eq
  built_mono := h.built_mono
  built_new := fun m hm hm2 =>
    ⟨fun hT => (h.built_new m hm hm2).1 (hTS m hT), (h.built_new m hm hm2).2⟩
  log_off := fun e he hT => h.log_off e he (hTS _ hT)

theorem FrameOn.cons_log {α : Type} {S : List String} {c c1 : buildContext α}
    {l : List Invocation} (h : FrameOn S c c1 l) (e : Invocation) (he : e.name ∉ S) :
    FrameOn S c c1 (e :: l) where
  builders_eq := h.builders_eq
  stack_eq := h.stack_eq
  built_mono := h.built_mono
  built_new := h.built_new
  log_off := by
    intro x hx
    rcases List.mem_cons.mp hx with h1 | h1
    · rw [h1]; exact he
    · exact h.log_off x h1

theorem FrameOn.store {α : Type} (S : List String) (c : buildContext α) (name : String)
    (v : Value α) (h1 : c.built name = none) (h2 : name ∉ S) (h3 : c.builders name ≠ none) :
    FrameOn S c (c.store name v) [] where
  builders_eq := rfl
  stack_eq := rfl
  built_mono := by
    intro m w hm
    by_cases hmn : m = name
    · rw [hmn, h1] at hm; cases hm
    · simp [buildContext.store, hmn, hm]
  built_new := by
    intro m hm hm2
    by_cases hmn : m = name
    · rw [hmn]; exact ⟨h2, h3⟩
    · simp [buildContext.store, hmn, hm] at hm2
  log_off := fun _ h => by simp at h

theorem FrameOn.bind {α β γ : Type} {S : List String} {c : buildContext α} (r : Res α β)
    (f : β → buildContext α → Res α γ) (h1 : FrameOn S c r.ctx r.log)
    (h2 : ∀ v, FrameOn S r.ctx (f v r.ctx).ctx (f v r.ctx).log) :
    FrameOn S c (r.bind f).ctx (r.bind f).log := by
  unfold Res.bind
  cases hr : r.out with
  | ok v => exact h1.trans (h2 v)
  | panic p => exact h1
  | outOfFuel => exact h1

theorem BuilderFn.run_frame {α : Type} (p : Provider α) (hp : p.Framed) (fn : BuilderFn α) :
    ∀ c, Frame c (fn.run p c).ctx (fn.run p c).log := by
  induction fn with
  | ret v => intro c; exact FrameOn.refl _ c
  | fail err => intro c; exact FrameOn.refl _ c
  | abort pv => intro c; exact FrameOn.refl _ c
  | getService name k ih =>
    intro c
    refine FrameOn.bind _ _ (hp.1 c name) (fun v => ?_)
    have := ih v (p.GetService c name).ctx
    unfold Frame at this
    rwa [(hp.1 c name).stack_eq] at this
  | getServices name k ih =>
    intro c
    refine FrameOn.bind _ _ (hp.2 c name) (fun vs => ?_)
    have := ih vs (p.GetServices c name).ctx
    unfold Frame at this
    rwa [(hp.2 c name).stack_eq] at this

/-- A builder invoked under `name` while `name` is on top of the stack: seen
from the names below, the run is framed. -/
theorem invoke_frame {α : Type} (p : Provider α) (hp : p.Framed) (S : List String)
    (name : String) (i : Nat) (b : Builder α) (c : buildContext α) (hS : ∀ x ∈ S, x ∈ c.buildStack)
    (hn : name ∉ S) : FrameOn S c (invoke name i b p c).ctx (invoke name i b p c).log := by
  have h := (BuilderFn.run_frame p hp b.fn c).weaken hS
  exact h.cons_log ⟨name, i⟩ hn

theorem buildEach_frame {α : Type} (p : Provider α) (hp : p.Framed) (S : List String)
    (name : String) (hn : name ∉ S) (bs : List (Builder α)) :
    ∀ (i : Nat) (c : buildContext α), (∀ x ∈ S, x ∈ c.buildStack) →
      FrameOn S c (buildEach p name i bs c).ctx (buildEach p name i bs c).log := by
  induction bs with
  | nil => intro i c _; exact FrameOn.refl _ c
  | cons b rest ih =>
    intro i c hS
    unfold buildEach
    have h1 := invoke_frame p hp S name i b c hS hn
    refine FrameOn.bind _ _ h1 (fun r => ?_)
    cases r with
    | error e => exact FrameOn.refl _ _
    | ok built =>
      have hS2 : ∀ x ∈ S, x ∈ (invoke name i b p c).ctx.buildStack := by
        rw [h1.stack_eq]; exact hS
      exact FrameOn.bind _ _ (ih (i + 1) _ hS2) (fun vs => FrameOn.refl _ _)

/-- A framed run leaves the cache entries of protected names as they were. -/
theorem FrameOn.built_eq {α : Type} {S : List String} {c c1 : buildContext α}
    {l : List Invocation} (h : FrameOn S c c1 l) (m : String) (hm : m ∈ S) :
    c1.built m = c.built m := by
  cases hc : c.built m with
  | some v => exact h.built_mono m v hc
  | none =>
    by_contra hne
    exact (h.built_new m hc hne).1 hm

theorem Res.bind_built_eq {α β γ : Type} (r : Res α β) (f : β → buildContext α → Res α γ)
    (c : buildContext α) (m : String) (h1 : r.ctx.built m = c.built m)
    (h2 : ∀ v, (f v r.ctx).ctx.built m = r.ctx.built m) :
    (r.bind f).ctx.built m = c.built m := by
  unfold Res.bind
  cases hr : r.out with
  | ok v => exact (h2 v).trans h1
  | panic p => exact h1
  | outOfFuel => exact h1

/-- The loop of `GetServices` leaves the cache entries of the names on the
stack, the requested one included, as they were. -/
theorem buildEach_built_eq {α : Type} (p : Provider α) (hp : p.Framed) (name : String)
    (bs : List (Builder α)) :
    ∀ (i : Nat) (c : buildContext α) (m : String), m ∈ c.buildStack →
      (buildEach p name i bs c).ctx.built m = c.built m := by
  induction bs with
  | nil => intro i c m _; rfl
  | cons b rest ih =>
    intro i c m hm
    unfold buildEach
    have hrun := BuilderFn.run_frame p hp b.fn c
    refine Res.bind_built_eq _ _ c m (hrun.built_eq m hm) (fun r => ?_)
    cases r with
    | error e => rfl
    | ok built =>
      have hm2 : m ∈ (invoke name i b p c).ctx.buildStack := by
        have : (invoke name i b p c).ctx.buildStack = c.buildStack := hrun.stack_eq
        rw [this]; exact hm
      exact Res.bind_built_eq _ _ _ m (ih (i + 1) _ m hm2) (fun vs => rfl)

theorem deferPop_eq {α β : Type} (r : Res α β) (S : List String) (name : String)
    (h : r.ctx.buildStack = S ++ [name]) :
    deferPop r = ⟨r.out, { r.ctx with buildStack := S }, r.log⟩ := by
  have hd : (S ++ [name]).dropLast = S := List.dropLast_concat
  unfold deferPop
  rw [h, hd]
  cases S <;> rfl

theorem deferPop_mk {α β : Type} (out : Outcome β) (ctx : buildContext α)
    (log : List Invocation) (S : List String) (name : String)
    (h : ctx.buildStack = S ++ [name]) :
    deferPop ⟨out, ctx, log⟩ = ⟨out, ctx.withStack S, log⟩ :=
  deferPop_eq ⟨out, ctx, log⟩ S name h

/-- Leaving a call: a run framed below the pushed name, popped, is a framed
call. -/
theorem deferPop_frame {α β : Type} (c : buildContext α) (name : String) (r : Res α β)
    (h : FrameOn c.buildStack (c.push name) r.ctx r.log) :
    Frame c (deferPop r).ctx (deferPop r).log := by
  have hs : r.ctx.buildStack = c.buildStack ++ [name] := h.stack_eq
  rw [deferPop_eq r c.buildStack name hs]
  exact ⟨h.builders_eq, rfl, h.built_mono, h.built_new, h.log_off⟩

theorem GetService_succ_frame {α : Type} (fuel : Nat) (hp : (provider fuel : Provider α).Framed)
    (c : buildContext α) (name : String) :
    Frame c (GetService (fuel + 1) c name).ctx (GetService (fuel + 1) c name).log := by
  rw [GetService]
  split
  · exact FrameOn.refl _ c
  · rename_i hin
    have hn : name ∉ c.buildStack := fun h => hin ((isInBuildStack_iff c name).mpr h)
    apply deferPop_frame c name
    split
    · exact FrameOn.refl _ _
    · split
      · exact FrameOn.refl _ _
      · split
        · exact FrameOn.refl _ _
        · split
          · exact FrameOn.refl _ _
          · rename_i x0 hbuilt x1 x2 b rest hreg hlen
            have hS : ∀ x ∈ c.buildStack, x ∈ (c.push name).buildStack := by
              intro x hx; simp [buildContext.push, hx]
            have hrun := BuilderFn.run_frame (provider fuel) hp b.fn (c.push name)
            have hinv := invoke_frame (provider fuel) hp c.buildStack name 0 b (c.push name) hS hn
            refine FrameOn.bind _ _ hinv (fun r => ?_)
            cases r with
            | error e => exact FrameOn.refl _ _
            | ok built =>
              have hstill : (invoke name 0 b (provider fuel) (c.push name)).ctx.built name = none := by
                by_contra hne
                exact (hrun.built_new name hbuilt hne).1 (by simp [buildContext.push])
              have hregd : (invoke name 0 b (provider fuel) (c.push name)).ctx.builders name ≠ none := by
                rw [hinv.builders_eq, hreg]; simp
              by_cases hsh : b.Options.IsShared = true
              · simp only [hsh, if_true]
                exact FrameOn.store _ _ name built hstill hn hregd
              · simp only [hsh]
                exact FrameOn.refl _ _

theorem GetServices_succ_frame {α : Type} (fuel : Nat) (hp : (provider fuel : Provider α).Framed)
    (c : buildContext α) (name : String) :
    Frame c (GetServices (fuel + 1) c name).ctx (GetServices (fuel + 1) c name).log := by
  rw [GetServices]
  split
  · exact FrameOn.refl _ c
  · rename_i hin
    have hn : name ∉ c.buildStack := fun h => hin ((isInBuildStack_iff c name).mpr h)
    apply deferPop_frame c name
    split
    · exact FrameOn.refl _ _
    · exact FrameOn.refl _ _
    · split
      · exact FrameOn.refl _ _
      · rename_i x0 hbuilt x1 builders hreg
        have hS : ∀ x ∈ c.buildStack, x ∈ (c.push name).buildStack := by
          intro x hx; simp [buildContext.push, hx]
        have heach := buildEach_frame (provider fuel) hp c.buildStack name hn builders 0
          (c.push name) hS
        refine FrameOn.bind _ _ heach (fun result => ?_)
        have hstill : (buildEach (provider fuel) name 0 builders (c.push name)).ctx.built name
            = none := by
          rw [buildEach_built_eq (provider fuel) hp name builders 0 (c.push name) name
            (by simp [buildContext.push])]
          exact hbuilt
        have hregd : (buildEach (provider fuel) name 0 builders (c.push name)).ctx.builders name
            ≠ none := by
          rw [heach.builders_eq, hreg]; simp
        exact FrameOn.store _ _ name (.slice result) hstill hn hregd

/-- Every call of `GetService` and `GetServices`, whatever its outcome, is
framed: the central invariant of the engine. -/
theorem provider_framed {α : Type} (fuel : Nat) : (provider fuel : Provider α).Framed := by
  induction fuel with
  | zero => exact ⟨fun c n => FrameOn.refl _ c, fun c n => FrameOn.refl _ c⟩
  | succ fuel ih =>
    exact ⟨fun c n => GetService_succ_frame fuel ih c n,
      fun c n => GetServices_succ_frame fuel ih c n⟩

theorem GetService_frame {α : Type} (fuel : Nat) (c : buildContext α) (name : String) :
    Frame c (GetService fuel c name).ctx (GetService fuel c name).log :=
  (provider_framed fuel).1 c name

theorem GetServices_frame {α : Type} (fuel : Nat) (c : buildContext α) (name : String) :
    Frame c (GetServices fuel c name).ctx (GetServices fuel c name).log :=
  (provider_framed fuel).2 c name

/-! ### The exit paths of `GetService` and `GetServices`, one equation each -/

theorem deferPop_push {α β : Type} (c : buildContext α) (name : String) (out : Outcome β)
    (log : List Invocation) : deferPop ⟨out, c.push name, log⟩ = ⟨out, c, log⟩ := by
  rw [deferPop_eq _ c.buildStack name rfl]
  rfl

theorem GetService_circular {α : Type} (fuel : Nat) (c : buildContext α) (name : String)
    (h : name ∈ c.buildStack) :
    GetService (fuel + 1) c name = ⟨.panic (.msg (circularMessage c.buildStack name)), c, []⟩ := by
  rw [GetService, if_pos ((isInBuildStack_iff c name).mpr h)]
  rfl

theorem GetServices_circular {α : Type} (fuel : Nat) (c : buildContext α) (name : String)
    (h : name ∈ c.buildStack) :
    GetServices (fuel + 1) c name = ⟨.panic (.msg (circularMessage c.buildStack name)), c, []⟩ := by
  rw [GetServices, if_pos ((isInBuildStack_iff c name).mpr h)]
  rfl

theorem GetService_hit {α : Type} (fuel : Nat) (c : buildContext α) (name : String)
    (v : Value α) (h : name ∉ c.buildStack) (hb : c.built name = some v) :
    GetService (fuel + 1) c name = ⟨.ok v, c, []⟩ := by
  have hb1 : (c.push name).built name = some v := hb
  rw [GetService, if_neg (fun hin => h ((isInBuildStack_iff c name).mp hin))]
  simp only [hb1]
  exact deferPop_push c name _ _

theorem GetService_missing {α : Type} (fuel : Nat) (c : buildContext α) (name : String)
    (h : name ∉ c.buildStack) (hb : c.built name = none) (hr : c.builders name = none) :
    GetService (fuel + 1) c name =
      ⟨.panic (.msg "builder does not exist for the type"), c, []⟩ := by
  have hb1 : (c.push name).built name = none := hb
  have hr1 : (c.push name).builders name = none := hr
  rw [GetService, if_neg (fun hin => h ((isInBuildStack_iff c name).mp hin))]
  simp only [hb1, hr1]
  exact deferPop_push c name _ _

theorem GetService_ambiguous {α : Type} (fuel : Nat) (c : buildContext α) (name : String)
    (bs : List (Builder α)) (h : name ∉ c.buildStack) (hb : c.built name = none)
    (hr : c.builders name = some bs) (hl : 1 < bs.length) :
    GetService (fuel + 1) c name =
      ⟨.panic (.msg "ambiguous: several builders for the type"), c, []⟩ := by
  have hb1 : (c.push name).built name = none := hb
  have hr1 : (c.push name).builders name = some bs := hr
  rw [GetService, if_neg (fun hin => h ((isInBuildStack_iff c name).mp hin))]
  simp only [hb1, hr1, gt_iff_lt, hl, if_true]
  exact deferPop_push c name _ _

theorem GetService_build {α : Type} (fuel : Nat) (c : buildContext α) (name : String)
    (b : Builder α) (h : name ∉ c.buildStack) (hb : c.built name = none)
    (hr : c.builders name = some [b]) :
    GetService (fuel + 1) c name =
      deferPop ((invoke name 0 b (provider fuel) (c.push name)).bind (fun r c1 =>
        match r with
        | .error _ => ⟨.panic (.msg "failed to build service"), c1, []⟩
        | .ok built =>
          if b.Options.IsShared then ⟨.ok built, c1.store name built, []⟩
          else ⟨.ok built, c1, []⟩)) := by
  have hb1 : (c.push name).built name = none := hb
  have hr1 : (c.push name).builders name = some [b] := hr
  rw [GetService, if_neg (fun hin => h ((isInBuildStack_iff c name).mp hin))]
  simp only [hb1, hr1, List.length_singleton, gt_iff_lt, lt_irrefl, if_false]
  rfl

theorem GetServices_hit {α : Type} (fuel : Nat) (c : buildContext α) (name : String)
    (items : List (Value α)) (h : name ∉ c.buildStack) (hb : c.built name = some (.slice items)) :
    GetServices (fuel + 1) c name = ⟨.ok items, c, []⟩ := by
  have hb1 : (c.push name).built name = some (.slice items) := hb
  rw [GetServices, if_neg (fun hin => h ((isInBuildStack_iff c name).mp hin))]
  simp only [hb1]
  exact deferPop_push c name _ _

theorem GetServices_mismatch {α : Type} (fuel : Nat) (c : buildContext α) (name : String)
    (a : α) (h : name ∉ c.buildStack) (hb : c.built name = some (.obj a)) :
    GetServices (fuel + 1) c name = ⟨.panic .typeAssertion, c, []⟩ := by
  have hb1 : (c.push name).built name = some (.obj a) := hb
  rw [GetServices, if_neg (fun hin => h ((isInBuildStack_iff c name).mp hin))]
  simp only [hb1]
  exact deferPop_push c name _ _

theorem GetServices_absent {α : Type} (fuel : Nat) (c : buildContext α) (name : String)
    (h : name ∉ c.buildStack) (hb : c.built name = none) (hr : c.builders name = none) :
    GetServices (fuel + 1) c name = ⟨.ok [], c, []⟩ := by
  have hb1 : (c.push name).built name = none := hb
  have hr1 : (c.push name).builders name = none := hr
  rw [GetServices, if_neg (fun hin => h ((isInBuildStack_iff c name).mp hin))]
  simp only [hb1, hr1]
  exact deferPop_push c name _ _

theorem GetServices_build {α : Type} (fuel : Nat) (c : buildContext α) (name : String)
    (bs : List (Builder α)) (h : name ∉ c.buildStack) (hb : c.built name = none)
    (hr : c.builders name = some bs) :
    GetServices (fuel + 1) c name =
      deferPop ((buildEach (provider fuel) name 0 bs (c.push name)).bind
        (fun result c1 => ⟨.ok result, c1.store name (.slice result), []⟩)) := by
  have hb1 : (c.push name).built name = none := hb
  have hr1 : (c.push name).builders name = some bs := hr
  rw [GetServices, if_neg (fun hin => h ((isInBuildStack_iff c name).mp hin))]
  simp only [hb1, hr1]
  rfl

/-! ### The build path of `GetService`, by what `Build` returns -/

theorem Build_stack {α : Type} (fuel : Nat) (b : Builder α) (c : buildContext α) :
    (b.Build (provider fuel) c).ctx.buildStack = c.buildStack :=
  (BuilderFn.run_frame (provider fuel) (provider_framed fuel) b.fn c).stack_eq

theorem Res.bind_ok {α β γ : Type} (r : Res α β) (f : β → buildContext α → Res α γ) (v : β)
    (h : r.out = .ok v) :
    r.bind f = ⟨(f v r.ctx).out, (f v r.ctx).ctx, r.log ++ (f v r.ctx).log⟩ := by
  unfold Res.bind; rw [h]

theorem Res.bind_panic {α β γ : Type} (r : Res α β) (f : β → buildContext α → Res α γ)
    (pv : PanicValue) (h : r.out = .panic pv) : r.bind f = ⟨.panic pv, r.ctx, r.log⟩ := by
  unfold Res.bind; rw [h]

theorem Res.bind_outOfFuel {α β γ : Type} (r : Res α β) (f : β → buildContext α → Res α γ)
    (h : r.out = .outOfFuel) : r.bind f = ⟨.outOfFuel, r.ctx, r.log⟩ := by
  unfold Res.bind; rw [h]

theorem GetService_build_ok {α : Type} (fuel : Nat) (c : buildContext α) (name : String)
    (b : Builder α) (v : Value α) (h : name ∉ c.buildStack) (hb : c.built name = none)
    (hr : c.builders name = some [b])
    (hout : (b.Build (provider fuel) (c.push name)).out = .ok (.ok v)) :
    GetService (fuel + 1) c name =
      ⟨.ok v,
        (if b.Options.IsShared then (b.Build (provider fuel) (c.push name)).ctx.store name v
          else (b.Build (provider fuel) (c.push name)).ctx).withStack c.buildStack,
        ⟨name, 0⟩ :: (b.Build (provider fuel) (c.push name)).log⟩ := by
  have hst : (b.Build (provider fuel) (c.push name)).ctx.buildStack = c.buildStack ++ [name] :=
    Build_stack fuel b (c.push name)
  have hinv : (invoke name 0 b (provider fuel) (c.push name)).out = .ok (.ok v) := hout
  rw [GetService_build fuel c name b h hb hr, Res.bind_ok _ _ _ hinv]
  by_cases hsh : b.Options.IsShared = true
  · simp only [hsh, if_true]
    rw [deferPop_mk _ _ _ c.buildStack name]
    · simp [invoke]
    · exact hst
  · simp only [hsh, Bool.false_eq_true, if_false]
    rw [deferPop_mk _ _ _ c.buildStack name]
    · simp [invoke]
    · exact hst

theorem GetService_build_error {α : Type} (fuel : Nat) (c : buildContext α) (name : String)
    (b : Builder α) (err : String) (h : name ∉ c.buildStack) (hb : c.built name = none)
    (hr : c.builders name = some [b])
    (hout : (b.Build (provider fuel) (c.push name)).out = .ok (.error err)) :
    GetService (fuel + 1) c name =
      ⟨.panic (.msg "failed to build service"),
        (b.Build (provider fuel) (c.push name)).ctx.withStack c.buildStack,
        ⟨name, 0⟩ :: (b.Build (provider fuel) (c.push name)).log⟩ := by
  have hst : (b.Build (provider fuel) (c.push name)).ctx.buildStack = c.buildStack ++ [name] :=
    Build_stack fuel b (c.push name)
  have hinv : (invoke name 0 b (provider fuel) (c.push name)).out = .ok (.error err) := hout
  rw [GetService_build fuel c name b h hb hr, Res.bind_ok _ _ _ hinv]
  simp only []
  rw [deferPop_mk _ _ _ c.buildStack name]
  · simp [invoke]
  · exact hst

theorem GetService_build_panic {α : Type} (fuel : Nat) (c : buildContext α) (name : String)
    (b : Builder α) (pv : PanicValue) (h : name ∉ c.buildStack) (hb : c.built name = none)
    (hr : c.builders name = some [b])
    (hout : (b.Build (provider fuel) (c.push name)).out = .panic pv) :
    GetService (fuel + 1) c name =
      ⟨.panic pv, (b.Build (provider fuel) (c.push name)).ctx.withStack c.buildStack,
        ⟨name, 0⟩ :: (b.Build (provider fuel) (c.push name)).log⟩ := by
  have hst : (b.Build (provider fuel) (c.push name)).ctx.buildStack = c.buildStack ++ [name] :=
    Build_stack fuel b (c.push name)
  have hinv : (invoke name 0 b (provider fuel) (c.push name)).out = .panic pv := hout
  rw [GetService_build fuel c name b h hb hr, Res.bind_panic _ _ _ hinv]
  rw [deferPop_mk _ _ _ c.buildStack name]
  · simp [invoke]
  · exact hst

theorem GetService_build_outOfFuel {α : Type} (fuel : Nat) (c : buildContext α) (name : String)
    (b : Builder α) (h : name ∉ c.buildStack) (hb : c.built name = none)
    (hr : c.builders name = some [b])
    (hout : (b.Build (provider fuel) (c.push name)).out = .outOfFuel) :
    (GetService (fuel + 1) c name).out = .outOfFuel := by
  have hst : (b.Build (provider fuel) (c.push name)).ctx.buildStack = c.buildStack ++ [name] :=
    Build_stack fuel b (c.push name)
  have hinv : (invoke name 0 b (provider fuel) (c.push name)).out = .outOfFuel := hout
  rw [GetService_build fuel c name b h hb hr, Res.bind_outOfFuel _ _ hinv]
  rw [deferPop_mk _ _ _ c.buildStack name]
  exact hst

/-! ### `Assemble` -/

theorem foldl_appendBuilder {α : Type} (bs : List (Builder α)) :
    ∀ (m : String → Option (List (Builder α))) (n : String),
      bs.foldl appendBuilder m n =
        if (bs.filter (fun b => b.CommandName = n)).isEmpty then m n
        else some ((m n).getD [] ++ bs.filter (fun b => b.CommandName = n)) := by
  induction bs with
  | nil => intro m n; simp
  | cons b rest ih =>
    intro m n
    rw [List.foldl_cons, ih]
    by_cases hb : b.CommandName = n
    · subst hb
      simp [appendBuilder, List.filter_cons]
    · have hb2 : ¬ n = b.CommandName := fun e => hb e.symm
      simp [appendBuilder, List.filter_cons, hb, hb2]

theorem newBuildContext_builders {α : Type} (bs : List (Builder α)) (n : String) :
    (newBuildContext bs).builders n =
      if (bs.filter (fun b => b.CommandName = n)).isEmpty then none
      else some (bs.filter (fun b => b.CommandName = n)) := by
  unfold newBuildContext
  simp only [foldl_appendBuilder]
  simp

/-- C10. `Assemble(bs)` has an empty cache and an empty dependency stack, and
its registry maps each name to the builders of `bs` with that `CommandName`,
in their order in `bs`; a name no builder has is absent; the registry holds
`len(bs)` builders in all. -/
theorem Assemble_partitions {α : Type} (bs : List (Builder α)) :
    (∀ n, (Assemble bs).built n = none) ∧
    (Assemble bs).buildStack = [] ∧
    (∀ n, n ∈ bs.map builder.CommandName →
      (Assemble bs).builders n = some (bs.filter (fun b => b.CommandName = n))) ∧
    (∀ n, n ∉ bs.map builder.CommandName → (Assemble bs).builders n = none) ∧
    (((bs.map builder.CommandName).dedup.map
      (fun n => ((Assemble bs).registered n).length)).sum = bs.length) := by
  have hin : ∀ n, n ∈ bs.map builder.CommandName →
      (Assemble bs).builders n = some (bs.filter (fun b => b.CommandName = n)) := by
    intro n hn
    obtain ⟨b, hb, hbn⟩ := List.mem_map.mp hn
    have hne : (bs.filter (fun b => b.CommandName = n)).isEmpty = false := by
      rw [List.isEmpty_eq_false]
      exact List.ne_nil_of_mem (List.mem_filter.mpr ⟨hb, by simp [hbn]⟩)
    show (newBuildContext bs).builders n = _
    rw [newBuildContext_builders, hne]
    simp
  refine ⟨fun n => rfl, rfl, hin, ?_, ?_⟩
  · intro n hn
    have he : (bs.filter (fun b => b.CommandName = n)).isEmpty = true := by
      rw [List.isEmpty_iff, List.filter_eq_nil_iff]
      intro b hb hbn
      exact hn (List.mem_map.mpr ⟨b, hb, by simpa using hbn⟩)
    show (newBuildContext bs).builders n = _
    rw [newBuildContext_builders, he]
    simp
  · have hcount : ∀ n ∈ (bs.map builder.CommandName).dedup,
        ((Assemble bs).registered n).length = (bs.map builder.CommandName).count n := by
      intro n hn
      have hn2 : n ∈ bs.map builder.CommandName := List.mem_dedup.mp hn
      unfold buildContext.registered
      rw [hin n hn2, Option.getD_some, List.count, List.countP_map, List.countP_eq_length_filter]
      congr 1
    rw [List.map_congr_left hcount, List.sum_map_count_dedup_eq_length, List.length_map]

/-! ### Contexts that exist are well formed -/

theorem Assemble_wellFormed {α : Type} (bs : List (Builder α)) : WellFormed (Assemble bs) := by
  refine ⟨?_, fun n h => absurd rfl h⟩
  intro n l hl
  have h := newBuildContext_builders bs n
  rw [show (newBuildContext bs).builders n = some l from hl] at h
  cases he : (bs.filter (fun b => b.CommandName = n)).isEmpty with
  | true => rw [he] at h; simp at h
  | false =>
    rw [he] at h
    simp only [Bool.false_eq_true, if_false, Option.some.injEq] at h
    rw [h]
    exact List.isEmpty_eq_false.mp he

theorem FrameOn.preserves_wellFormed {α : Type} {S : List String} {c c1 : buildContext α}
    {l : List Invocation} (h : FrameOn S c c1 l) (hw : WellFormed c) : WellFormed c1 := by
  refine ⟨?_, ?_⟩
  · intro n bs hn
    rw [h.builders_eq] at hn
    exact hw.1 n bs hn
  · intro n hn
    rw [h.builders_eq]
    cases hc : c.built n with
    | none => exact (h.built_new n hc hn).2
    | some v => exact hw.2 n (by simp [hc])

theorem Reachable.is_wellFormed {α : Type} {c : buildContext α} (h : Reachable c) :
    WellFormed c := by
  induction h with
  | assemble bs => exact Assemble_wellFormed bs
  | getService fuel c name _ ih => exact (GetService_frame fuel c name).preserves_wellFormed ih
  | getServices fuel c name _ ih => exact (GetServices_frame fuel c name).preserves_wellFormed ih
  | enter c name _ _ _ _ ih => exact ih

/-- In a context that exists, a name with zero registered builders has no
registry entry and no cache entry. -/
theorem Reachable.unregistered {α : Type} {c : buildContext α} (h : Reachable c)
    (name : String) (h0 : (c.registered name).length = 0) :
    c.builders name = none ∧ c.built name = none := by
  have hw := h.is_wellFormed
  have hreg : c.builders name = none := by
    cases hb : c.builders name with
    | none => rfl
    | some bs =>
      exfalso
      unfold buildContext.registered at h0
      rw [hb] at h0
      exact hw.1 name bs hb (List.length_eq_zero.mp h0)
  refine ⟨hreg, ?_⟩
  by_contra hne
  exact hw.2 name hne hreg

/-! ### Failure conditions of `GetService` -/

/-- C5 as stated fails: after `GetService("collectionUser")` on the assembly
of `TestDependencyCollection`, whose construction function calls
`GetServices("collectionItem")`, the name `collectionItem` has two registered
builders and is not on the stack, yet `GetService("collectionItem")` returns
the cached collection instead of failing as ambiguous. -/
theorem GetService_ambiguous_after_GetServices :
    ((GetService 2 (Assemble testCollectionBuilders) "collectionUser").ctx.registered
        "collectionItem").length = 2 ∧
    (GetService 2 (Assemble testCollectionBuilders) "collectionUser").ctx.buildStack = [] ∧
    (GetService 1 (GetService 2 (Assemble testCollectionBuilders) "collectionUser").ctx
        "collectionItem").out =
      .ok (.slice [.obj (.collectionItemImpl 2), .obj (.collectionItemImpl 3)]) := by
  refine ⟨by rfl, by rfl, by rfl⟩

/-- C5, amended. For every context and every name with two or more registered
builders that is not on the dependency stack and has no cache entry,
`GetService(name)` panics with the ambiguous-builder message, invokes no
construction function and leaves the context as it was. -/
theorem GetService_ambiguous_builder {α : Type} (c : buildContext α) (name : String)
    (fuel : Nat) (h2 : 2 ≤ (c.registered name).length) (hs : name ∉ c.buildStack)
    (hb : c.built name = none) :
    GetService (fuel + 1) c name =
      ⟨.panic (.msg "ambiguous: several builders for the type"), c, []⟩ := by
  cases hr : c.builders name with
  | none => simp [buildContext.registered, hr] at h2
  | some bs =>
    have hl : 1 < bs.length := by
      simp only [buildContext.registered, hr, Option.getD_some] at h2
      omega
    exact GetService_ambiguous fuel c name bs hs hb hr hl

theorem GetService_ambiguous_builder_witness :
    2 ≤ ((Assemble testCollectionBuilders).registered "collectionItem").length ∧
    GetService 1 (Assemble testCollectionBuilders) "collectionItem" =
      ⟨.panic (.msg "ambiguous: several builders for the type"),
        Assemble testCollectionBuilders, []⟩ :=
  ⟨by decide,
    GetService_ambiguous_builder (Assemble testCollectionBuilders) "collectionItem" 0
      (by decide) (by decide) rfl⟩

/-- C6. In every context that exists and for every name with zero registered
builders that is not on the dependency stack, `GetService(name)` panics with
the missing-builder message (and changes nothing); whatever was looked up
before, the cache has no entry for such a name. -/
theorem GetService_missing_builder {α : Type} (c : buildContext α) (hc : Reachable c)
    (name : String) (fuel : Nat) (h0 : (c.registered name).length = 0)
    (hs : name ∉ c.buildStack) :
    GetService (fuel + 1) c name =
      ⟨.panic (.msg "builder does not exist for the type"), c, []⟩ ∧
    c.built name = none := by
  obtain ⟨hreg, hbuilt⟩ := hc.unregistered name h0
  exact ⟨GetService_missing fuel c name hs hbuilt hreg, hbuilt⟩

theorem GetService_missing_builder_witness :
    ((GetService 4 (Assemble testAssembleBuilders) "controller").ctx.registered
        "repository").length = 0 ∧
    (GetService 1 (GetService 4 (Assemble testAssembleBuilders) "controller").ctx
        "repository").out.panicValue = some (.msg "builder does not exist for the type") := by
  have h := GetService_missing_builder
    (GetService 4 (Assemble testAssembleBuilders) "controller").ctx
    (Reachable.getService 4 _ "controller" (Reachable.assemble testAssembleBuilders))
    "repository" 0 (by rfl) (by decide)
  exact ⟨by rfl, by rw [h.1]; rfl⟩

/-- C9. In every context that exists and for every name with zero registered
builders that is not on the dependency stack, `GetServices(name)` returns the
empty sequence, invokes no construction function, and leaves cache and stack
as they were; the cache has no entry for the name afterwards. -/
theorem GetServices_no_builders {α : Type} (c : buildContext α) (hc : Reachable c)
    (name : String) (fuel : Nat) (h0 : (c.registered name).length = 0)
    (hs : name ∉ c.buildStack) :
    GetServices (fuel + 1) c name = ⟨.ok [], c, []⟩ ∧
    (GetServices (fuel + 1) c name).ctx.built name = none := by
  obtain ⟨hreg, hbuilt⟩ := hc.unregistered name h0
  have h := GetServices_absent fuel c name hs hbuilt hreg
  exact ⟨h, by rw [h]; exact hbuilt⟩

theorem GetServices_no_builders_witness :
    ((Assemble testCollectionBuilders).registered "plugin").length = 0 ∧
    (GetServices 1 (Assemble testCollectionBuilders) "plugin").out = .ok [] ∧
    (GetServices 1 (Assemble testCollectionBuilders) "plugin").log = [] := by
  have h := GetServices_no_builders (Assemble testCollectionBuilders)
    (Reachable.assemble testCollectionBuilders) "plugin" 0 (by decide) (by decide)
  exact ⟨by decide, by rw [h.1], by rw [h.1]⟩

/-- C7 as stated fails: the construction functions of `serviceA` and of
`serviceB` both return an error, and the two calls panic with one and the same
value, the text "failed to build service", which names neither service. -/
theorem GetService_build_failure_same_value :
    (GetService 1 (Assemble failingBuilders) "serviceA").out.panicValue =
      some (.msg "failed to build service") ∧
    (GetService 1 (Assemble failingBuilders) "serviceB").out.panicValue =
      some (.msg "failed to build service") ∧
    (GetService 1 (Assemble failingBuilders) "serviceA").out =
      (GetService 1 (Assemble failingBuilders) "serviceB").out := by
  refine ⟨by decide, by decide, by rfl⟩

/-- C7, amended. For every name with exactly one registered builder, no cache
entry, and not on the stack, whose construction function returns an error,
`GetService(name)` panics with the fixed text "failed to build service",
whatever the name and the error are; the stack is restored and the cache entry
of the name stays absent. -/
theorem GetService_build_failure {α : Type} (c : buildContext α) (name : String)
    (b : Builder α) (fuel : Nat) (err : String) (hs : name ∉ c.buildStack)
    (hb : c.built name = none) (hr : c.builders name = some [b])
    (herr : (b.Build (provider fuel) (c.push name)).out = .ok (.error err)) :
    (GetService (fuel + 1) c name).out = .panic (.msg "failed to build service") ∧
    (GetService (fuel + 1) c name).ctx.buildStack = c.buildStack ∧
    (GetService (fuel + 1) c name).ctx.built name = none := by
  have hf := GetService_frame (fuel + 1) c name
  refine ⟨?_, hf.stack_eq, ?_⟩
  · rw [GetService_build_error fuel c name b err hs hb hr herr]
  · rw [GetService_build_error fuel c name b err hs hb hr herr]
    have hrun := BuilderFn.run_frame (provider fuel) (provider_framed fuel) b.fn (c.push name)
    have := hrun.built_eq name (by simp [buildContext.push])
    exact this.trans hb

theorem GetService_build_failure_witness :
    (builder.Build (NewBuilder "serviceA" (.fail "cannot build A")) (provider 0)
        ((Assemble failingBuilders).push "serviceA")).out = .ok (.error "cannot build A") ∧
    (GetService 1 (Assemble failingBuilders) "serviceA").out =
      .panic (.msg "failed to build service") :=
  ⟨rfl, (GetService_build_failure (Assemble failingBuilders) "serviceA"
    (NewBuilder "serviceA" (.fail "cannot build A")) 0 "cannot build A"
    (by decide) rfl rfl rfl).1⟩

/-! ### Shared and non-shared builders -/

theorem deferPop_log {α β : Type} (r : Res α β) : (deferPop r).log = r.log := by
  unfold deferPop
  split <;> rfl

/-- On the build path the log is the invocation of the builder followed by
what its construction function caused. -/
theorem GetService_build_log {α : Type} (fuel : Nat) (c : buildContext α) (name : String)
    (b : Builder α) (h : name ∉ c.buildStack) (hb : c.built name = none)
    (hr : c.builders name = some [b]) :
    (GetService (fuel + 1) c name).log =
      ⟨name, 0⟩ :: (b.Build (provider fuel) (c.push name)).log := by
  rw [GetService_build fuel c name b h hb hr, deferPop_log]
  cases hout : (invoke name 0 b (provider fuel) (c.push name)).out with
  | ok r =>
    rw [Res.bind_ok _ _ _ hout]
    cases r with
    | error e => simp [invoke]
    | ok v =>
      by_cases hsh : b.Options.IsShared = true
      · simp [hsh, invoke]
      · simp [hsh, invoke]
  | panic pv => rw [Res.bind_panic _ _ _ hout]; rfl
  | outOfFuel => rw [Res.bind_outOfFuel _ _ hout]; rfl

/-- While a construction function runs for `name`, no builder registered
under `name` is invoked. -/
theorem Build_log_off {α : Type} (fuel : Nat) (b : Builder α) (c : buildContext α)
    (name : String) (i : Nat) (h : name ∈ c.buildStack) :
    (b.Build (provider fuel) c).log.count ⟨name, i⟩ = 0 := by
  apply List.count_eq_zero_of_not_mem
  intro hmem
  exact (BuilderFn.run_frame (provider fuel) (provider_framed fuel) b.fn c).log_off _ hmem h

theorem GetService_build_count {α : Type} (fuel : Nat) (c : buildContext α) (name : String)
    (b : Builder α) (h : name ∉ c.buildStack) (hb : c.built name = none)
    (hr : c.builders name = some [b]) :
    (GetService (fuel + 1) c name).log.count ⟨name, 0⟩ = 1 := by
  rw [GetService_build_log fuel c name b h hb hr, List.count_cons_self,
    Build_log_off fuel b (c.push name) name 0 (by simp [buildContext.push])]

/-- C2. For every context and every name whose single registered builder is
shared: if `GetService(name)` returns `v`, then the next `GetService(name)` on
the context it leaves returns the same `v`, invokes no construction function,
and leaves cache and stack unchanged; over the two calls the construction
function of the name runs at most once. -/
theorem GetService_shared_twice {α : Type} (c : buildContext α) (name : String)
    (b : Builder α) (v : Value α) (fuel fuel2 : Nat) (hr : c.builders name = some [b])
    (hsh : b.Options.IsShared = true) (hok : (GetService fuel c name).out = .ok v) :
    GetService (fuel2 + 1) (GetService fuel c name).ctx name =
      ⟨.ok v, (GetService fuel c name).ctx, []⟩ ∧
    ((GetService fuel c name).log ++
      (GetService (fuel2 + 1) (GetService fuel c name).ctx name).log).count ⟨name, 0⟩ ≤ 1 := by
  cases fuel with
  | zero => rw [GetService] at hok; cases hok
  | succ fuel =>
    by_cases hs : name ∈ c.buildStack
    · rw [GetService_circular fuel c name hs] at hok; cases hok
    · have hstack : (GetService (fuel + 1) c name).ctx.buildStack = c.buildStack :=
        (GetService_frame (fuel + 1) c name).stack_eq
      have hs2 : name ∉ (GetService (fuel + 1) c name).ctx.buildStack := by rw [hstack]; exact hs
      have key : (GetService (fuel + 1) c name).ctx.built name = some v ∧
          (GetService (fuel + 1) c name).log.count ⟨name, 0⟩ ≤ 1 := by
        cases hb : c.built name with
        | some w =>
          rw [GetService_hit fuel c name w hs hb] at hok ⊢
          cases hok
          exact ⟨hb, by simp⟩
        | none =>
          refine ⟨?_, le_of_eq (GetService_build_count fuel c name b hs hb hr)⟩
          cases hout : (b.Build (provider fuel) (c.push name)).out with
          | ok r =>
            cases r with
            | error e =>
              rw [GetService_build_error fuel c name b e hs hb hr hout] at hok; cases hok
            | ok w =>
              rw [GetService_build_ok fuel c name b w hs hb hr hout] at hok ⊢
              cases hok
              simp [hsh, buildContext.withStack, buildContext.store]
          | panic pv =>
            rw [GetService_build_panic fuel c name b pv hs hb hr hout] at hok; cases hok
          | outOfFuel =>
            rw [GetService_build_outOfFuel fuel c name b hs hb hr hout] at hok; cases hok
      have h2 := GetService_hit fuel2 (GetService (fuel + 1) c name).ctx name v hs2 key.1
      refine ⟨h2, ?_⟩
      rw [h2, List.append_nil]
      exact key.2

theorem GetService_shared_twice_witness :
    (GetService 1 (Assemble testAssembleBuilders) "domainObjectA").out =
      .ok (.obj .domainObjectAImpl) ∧
    (GetService 1 (GetService 1 (Assemble testAssembleBuilders) "domainObjectA").ctx
      "domainObjectA").log = [] := by
  have h := GetService_shared_twice (Assemble testAssembleBuilders) "domainObjectA"
    (NewBuilder "domainObjectA" (.ret (.obj .domainObjectAImpl))) (.obj .domainObjectAImpl)
    1 0 rfl rfl rfl
  exact ⟨rfl, by rw [h.1]⟩

/-- C8. For every context whose cache has no entry for `name`, `name` off the
stack, whose single registered builder is non-shared and returns a value `v`:
`GetService(name)` returns `v`, the cache still has no entry for `name` on
return, the builder was invoked once, and the next `GetService(name)` invokes
it again, once. -/
theorem GetService_nonshared_not_cached {α : Type} (c : buildContext α) (name : String)
    (b : Builder α) (v : Value α) (fuel : Nat) (hs : name ∉ c.buildStack)
    (hb : c.built name = none) (hr : c.builders name = some [b])
    (hns : b.Options.IsShared = false)
    (hout : (b.Build (provider fuel) (c.push name)).out = .ok (.ok v)) :
    (GetService (fuel + 1) c name).out = .ok v ∧
    (GetService (fuel + 1) c name).ctx.built name = none ∧
    (GetService (fuel + 1) c name).log.count ⟨name, 0⟩ = 1 ∧
    ∀ fuel2, (GetService (fuel2 + 1) (GetService (fuel + 1) c name).ctx name).log =
        ⟨name, 0⟩ :: (b.Build (provider fuel2)
          ((GetService (fuel + 1) c name).ctx.push name)).log ∧
      (GetService (fuel2 + 1) (GetService (fuel + 1) c name).ctx name).log.count ⟨name, 0⟩
        = 1 := by
  have hf := GetService_frame (fuel + 1) c name
  have hrun := BuilderFn.run_frame (provider fuel) (provider_framed fuel) b.fn (c.push name)
  have hkept : (b.Build (provider fuel) (c.push name)).ctx.built name = none :=
    (hrun.built_eq name (by simp [buildContext.push])).trans hb
  have hnone : (GetService (fuel + 1) c name).ctx.built name = none := by
    rw [GetService_build_ok fuel c name b v hs hb hr hout]
    simp only [hns, Bool.false_eq_true, if_false]
    exact hkept
  have hs2 : name ∉ (GetService (fuel + 1) c name).ctx.buildStack := by
    rw [hf.stack_eq]; exact hs
  have hr2 : (GetService (fuel + 1) c name).ctx.builders name = some [b] := by
    rw [hf.builders_eq]; exact hr
  refine ⟨?_, hnone, GetService_build_count fuel c name b hs hb hr, fun fuel2 => ⟨?_, ?_⟩⟩
  · rw [GetService_build_ok fuel c name b v hs hb hr hout]
  · exact GetService_build_log fuel2 _ name b hs2 hnone hr2
  · exact GetService_build_count fuel2 _ name b hs2 hnone hr2

theorem GetService_nonshared_not_cached_witness :
    (GetService 1 (Assemble nonSharedBuilders) "perRequest").out =
      .ok (.obj .domainObjectAImpl) ∧
    (GetService 1 (GetService 1 (Assemble nonSharedBuilders) "perRequest").ctx
      "perRequest").log = [⟨"perRequest", 0⟩] := by
  have h := GetService_nonshared_not_cached (Assemble nonSharedBuilders) "perRequest"
    (NewBuilderWithOptions "perRequest" (.ret (.obj .domainObjectAImpl)) { IsShared := false })
    (.obj .domainObjectAImpl) 0 (by decide) rfl rfl rfl rfl
  exact ⟨h.1, by rw [(h.2.2.2 0).1]; rfl⟩

/-! ### `GetServices` builds in registration order -/

theorem buildRuns_length {α : Type} (p : Provider α) (bs : List (Builder α)) :
    ∀ c, (buildRuns p bs c).length = bs.length := by
  induction bs with
  | nil => intro c; rfl
  | cons b rest ih => intro c; simp [buildRuns, ih]

theorem returned_isSome {α : Type} (r : Res α (Except String (Value α)))
    (h : r.returned.isSome = true) : ∃ v, r.out = .ok (.ok v) ∧ r.returned = some v := by
  unfold Res.returned at h ⊢
  cases hr : r.out with
  | ok x =>
    cases x with
    | error e => rw [hr] at h; simp at h
    | ok v => exact ⟨v, rfl, rfl⟩
  | panic pv => rw [hr] at h; simp at h
  | outOfFuel => rw [hr] at h; simp at h

/-- When every builder of the list returns a value, the loop returns those
values in order, having invoked the builders under `name` once each, in
order. -/
theorem buildEach_all_returned {α : Type} (p : Provider α) (hp : p.Framed) (name : String)
    (bs : List (Builder α)) :
    ∀ (i : Nat) (c : buildContext α), name ∈ c.buildStack →
      (∀ r ∈ buildRuns p bs c, r.returned.isSome = true) →
      ∃ vs, (buildEach p name i bs c).out = .ok vs ∧
        vs.map some = (buildRuns p bs c).map Res.returned ∧
        (buildEach p name i bs c).log.filter (fun e => e.name = name) =
          (List.range' i bs.length).map (fun j => ⟨name, j⟩) := by
  induction bs with
  | nil => intro i c _ _; exact ⟨[], rfl, rfl, rfl⟩
  | cons b rest ih =>
    intro i c hn hall
    have hrun := BuilderFn.run_frame p hp b.fn c
    obtain ⟨v, hv, hret⟩ := returned_isSome (b.Build p c) (hall _ (by simp [buildRuns]))
    have hn2 : name ∈ (b.Build p c).ctx.buildStack := by
      have : (b.Build p c).ctx.buildStack = c.buildStack := hrun.stack_eq
      rw [this]; exact hn
    obtain ⟨vs, hvs, hmap, hlog⟩ := ih (i + 1) (b.Build p c).ctx hn2
      (fun r hr => hall r (by simp [buildRuns, hr]))
    have hinv : (invoke name i b p c).out = .ok (.ok v) := hv
    have hvs2 : (buildEach p name (i + 1) rest (invoke name i b p c).ctx).out = .ok vs := hvs
    have hoff : (b.Build p c).log.filter (fun e => e.name = name) = [] := by
      rw [List.filter_eq_nil_iff]
      intro e he
      have := hrun.log_off e he
      simp only [decide_eq_true_eq]
      intro hen
      exact this (hen ▸ hn)
    refine ⟨v :: vs, ?_, ?_, ?_⟩
    · unfold buildEach
      rw [Res.bind_ok _ _ _ hinv]
      simp only []
      rw [Res.bind_ok _ _ _ hvs2]
    · simp [buildRuns, hret, hmap]
    · unfold buildEach
      rw [Res.bind_ok _ _ _ hinv]
      simp only []
      rw [Res.bind_ok _ _ _ hvs2]
      simp only [invoke, List.append_nil, List.cons_append, List.filter_cons, decide_True,
        if_true, List.filter_append, hoff, List.nil_append, List.length_cons]
      rw [show (buildEach p name (i + 1) rest (b.Build p c).ctx).log.filter
          (fun e => e.name = name) = _ from hlog, List.range'_succ]
      rfl

/-- C3. For every context whose cache has no entry for `name`, `name` off the
stack, and builders `bs` registered under `name` whose construction functions
all return a value: `GetServices(name)` returns a sequence of length
`len(bs)` whose i-th element is the value the i-th builder returned, and the
builders registered under `name` were invoked once each, in registration
order. -/
theorem GetServices_in_registration_order {α : Type} (c : buildContext α) (name : String)
    (bs : List (Builder α)) (fuel : Nat) (hs : name ∉ c.buildStack)
    (hb : c.built name = none) (hr : c.builders name = some bs)
    (hall : ∀ r ∈ buildRuns (provider fuel) bs (c.push name), r.returned.isSome = true) :
    ∃ vs, (GetServices (fuel + 1) c name).out = .ok vs ∧ vs.length = bs.length ∧
      vs.map some = (buildRuns (provider fuel) bs (c.push name)).map Res.returned ∧
      (GetServices (fuel + 1) c name).log.filter (fun e => e.name = name) =
        (List.range bs.length).map (fun i => ⟨name, i⟩) := by
  obtain ⟨vs, hvs, hmap, hlog⟩ := buildEach_all_returned (provider fuel) (provider_framed fuel)
    name bs 0 (c.push name) (by simp [buildContext.push]) hall
  have hlen : vs.length = bs.length := by
    have := congrArg List.length hmap
    simpa [buildRuns_length] using this
  have hstack : (buildEach (provider fuel) name 0 bs (c.push name)).ctx.buildStack =
      c.buildStack ++ [name] :=
    (buildEach_frame (provider fuel) (provider_framed fuel) [] name (by simp) bs 0
      (c.push name) (by simp)).stack_eq
  have heq : GetServices (fuel + 1) c name =
      ⟨.ok vs, ((buildEach (provider fuel) name 0 bs (c.push name)).ctx.store name
        (.slice vs)).withStack c.buildStack,
        (buildEach (provider fuel) name 0 bs (c.push name)).log ++ []⟩ := by
    rw [GetServices_build fuel c name bs hs hb hr, Res.bind_ok _ _ _ hvs]
    exact deferPop_mk _ _ _ c.buildStack name hstack
  refine ⟨vs, by rw [heq], hlen, hmap, ?_⟩
  rw [heq, List.append_nil, hlog, List.range_eq_range']

theorem GetServices_in_registration_order_witness :
    domainResult (GetService 2 (Assemble testCollectionBuilders) "collectionUser").out =
      some 5 ∧
    ∃ vs, (GetServices 1 (Assemble testCollectionBuilders) "collectionItem").out = .ok vs ∧
      vs.length = 2 ∧
      (GetServices 1 (Assemble testCollectionBuilders) "collectionItem").log =
        [⟨"collectionItem", 0⟩, ⟨"collectionItem", 1⟩] := by
  obtain ⟨vs, h1, h2, _, _⟩ := GetServices_in_registration_order
    (Assemble testCollectionBuilders) "collectionItem"
    [NewBuilder "collectionItem" (.ret (.obj (.collectionItemImpl 2))),
      NewBuilder "collectionItem" (.ret (.obj (.collectionItemImpl 3)))] 0
    (by decide) rfl rfl (by decide)
  exact ⟨by decide, vs, h1, h2, by decide⟩

/-! ### Cycles -/

theorem intercalate_go_concat (sep : String) (xs : List String) :
    ∀ (acc name : String), String.intercalate.go acc sep (xs ++ [name]) =
      xs.foldl (fun strBuilder dep => strBuilder ++ dep ++ sep) (acc ++ sep) ++ name := by
  induction xs with
  | nil => intro acc name; rfl
  | cons x xs ih =>
    intro acc name
    show String.intercalate.go (acc ++ sep ++ x) sep (xs ++ [name]) = _
    rw [ih]
    rfl

/-- The message of `panicCircular`: the stack entries and the offending name,
separated by `" > "`. -/
theorem circularMessage_eq (stack : List String) (name : String) :
    circularMessage stack name =
      "circular dependency detected: " ++ " > ".intercalate (stack ++ [name]) := by
  unfold circularMessage
  congr 1
  cases stack with
  | nil => rfl
  | cons x xs =>
    show _ = String.intercalate.go x " > " (xs ++ [name])
    rw [intercalate_go_concat, List.foldl_cons, String.empty_append]

theorem Build_getService {α : Type} (p : Provider α) (b : Builder α) (m : String)
    (k : Value α → BuilderFn α) (c : buildContext α) (h : b.fn = .getService m k) :
    b.Build p c = (p.GetService c m).bind (fun v c1 => (k v).run p c1) := by
  unfold builder.Build
  rw [h]
  rfl

/-- Descending along a chain of first requests that closes on a name of the
stack: every level panics with the message of the innermost call, and the
context is left as it was found. -/
theorem chain_circular {α : Type} (first : String) (suf : List String) :
    ∀ (pre : List String) (c : buildContext α) (fuel : Nat) (n : String) (rest : List String),
      suf = n :: rest → (pre ++ suf).Nodup → c.buildStack = pre →
      (∀ x ∈ suf, c.built x = none) → RequestChain c.builders first suf →
      first ∈ pre ++ suf → suf.length + 1 ≤ fuel →
      GetService fuel c n =
        ⟨.panic (.msg (circularMessage (pre ++ suf) first)), c,
          suf.map (fun x => ⟨x, 0⟩)⟩ := by
  induction suf with
  | nil => intro pre c fuel n rest h; cases h
  | cons a tail ih =>
    intro pre c fuel n rest hsuf hnodup hstack hcache hchain hfirst hfuel
    obtain ⟨rfl, rfl⟩ := List.cons.inj hsuf
    obtain ⟨f, rfl⟩ : ∃ f, fuel = f + 1 := ⟨fuel - 1, by simp at hfuel; omega⟩
    have hn : a ∉ c.buildStack := by
      rw [hstack]
      intro hmem
      exact (List.nodup_append.mp hnodup).2.2 hmem (List.mem_cons_self _ _)
    have hb : c.built a = none := hcache a (List.mem_cons_self _ _)
    have hpush : c.push a = { c with buildStack := pre ++ [a] } := by
      simp [buildContext.push, hstack]
    have hback : (c.push a).withStack c.buildStack = c := rfl
    cases tail with
    | nil =>
      obtain ⟨b, k, hr, hfn⟩ := hchain
      obtain ⟨g, rfl⟩ : ∃ g, f = g + 1 := ⟨f - 1, by simp at hfuel; omega⟩
      have hin : first ∈ (c.push a).buildStack := by
        simpa [buildContext.push, hstack] using hfirst
      have hbuild : b.Build (provider (g + 1)) (c.push a) =
          ⟨.panic (.msg (circularMessage (pre ++ [a]) first)), c.push a, []⟩ := by
        rw [Build_getService _ b first k _ hfn]
        show (GetService (g + 1) (c.push a) first).bind _ = _
        rw [GetService_circular g (c.push a) first hin]
        simp [Res.bind, buildContext.push, hstack]
      have hout : (b.Build (provider (g + 1)) (c.push a)).out =
          .panic (.msg (circularMessage (pre ++ [a]) first)) := by rw [hbuild]
      rw [GetService_build_panic (g + 1) c a b _ hn hb hr hout, hbuild]
      simp [hback]
    | cons m rest2 =>
      obtain ⟨⟨b, k, hr, hfn⟩, hchain2⟩ := hchain
      have hnodup2 : ((pre ++ [a]) ++ (m :: rest2)).Nodup := by simpa using hnodup
      have hrec := ih (pre ++ [a]) (c.push a) f m rest2 rfl hnodup2
        (by simp [buildContext.push, hstack])
        (fun x hx => hcache x (List.mem_cons_of_mem _ hx)) hchain2
        (by simpa using hfirst) (by simp at hfuel ⊢; omega)
      have hbuild : b.Build (provider f) (c.push a) =
          ⟨.panic (.msg (circularMessage (pre ++ a :: m :: rest2) first)), c.push a,
            (m :: rest2).map (fun x => ⟨x, 0⟩)⟩ := by
        rw [Build_getService _ b m k _ hfn]
        show (GetService f (c.push a) m).bind _ = _
        rw [hrec]
        simp [Res.bind]
      have hout : (b.Build (provider f) (c.push a)).out =
          .panic (.msg (circularMessage (pre ++ a :: m :: rest2) first)) := by rw [hbuild]
      rw [GetService_build_panic f c a b _ hn hb hr hout, hbuild]
      simp [hback]

/-- C4. For every registry and distinct names `n1, …, nk` (`k ≥ 1`), each with
exactly one builder, the construction function of `ni` first requesting
`n(i+1)` and that of `nk` requesting `n1`: `GetService(n1)` on the fresh
assembly ends (a budget of `k + 1` nested calls is enough) in a panic whose
value is "circular dependency detected: " followed by
`n1 > n2 > … > nk > n1`; the builders of `n1, …, nk` were invoked in that
order and the assembly is left as it was. -/
theorem GetService_cycle {α : Type} (bs : List (Builder α)) (n1 : String)
    (rest : List String) (fuel : Nat) (hnodup : (n1 :: rest).Nodup)
    (hchain : RequestChain (Assemble bs).builders n1 (n1 :: rest))
    (hfuel : (n1 :: rest).length + 1 ≤ fuel) :
    GetService fuel (Assemble bs) n1 =
      ⟨.panic (.msg ("circular dependency detected: " ++
          " > ".intercalate (n1 :: rest ++ [n1]))),
        Assemble bs, (n1 :: rest).map (fun n => ⟨n, 0⟩)⟩ := by
  have h := chain_circular n1 (n1 :: rest) [] (Assemble bs) fuel n1 rest rfl
    (by simpa using hnodup) rfl (fun x _ => rfl) hchain (by simp) hfuel
  rw [h, List.nil_append, circularMessage_eq]

theorem GetService_cycle_witness :
    (GetService 4 (Assemble cycleBuilders) "A").out =
      .panic (.msg "circular dependency detected: A > B > C > A") := by
  have h := GetService_cycle cycleBuilders "A" ["B", "C"] 4 (by decide)
    ⟨⟨_, _, rfl, rfl⟩, ⟨_, _, rfl, rfl⟩, ⟨_, _, rfl, rfl⟩⟩ (by decide)
  have hmsg : "circular dependency detected: " ++ " > ".intercalate ("A" :: ["B", "C"] ++ ["A"])
      = "circular dependency detected: A > B > C > A" := by decide
  rw [h, hmsg]

/-! ### `GetService` computes the reference recursion -/

theorem BuilderFn.eval_mono {α : Type} (a1 a2 : String → Option (Value α))
    (h : ∀ m w, a1 m = some w → a2 m = some w) (fn : BuilderFn α) :
    ∀ v, fn.eval a1 = some v → fn.eval a2 = some v := by
  induction fn with
  | ret v => intro w hw; exact hw
  | fail err => intro w hw; cases hw
  | abort pv => intro w hw; cases hw
  | getService m k ih =>
    intro v hv
    simp only [BuilderFn.eval] at hv ⊢
    cases hm : a1 m with
    | none => rw [hm] at hv; cases hv
    | some w =>
      rw [hm] at hv
      rw [h m w hm]
      exact ih w v hv
  | getServices m k _ => intro w hw; cases hw

theorem resolve_succ {α : Type} (bs : List (Builder α)) :
    ∀ (d : Nat) (n : String) (v : Value α), resolve bs d n = some v →
      resolve bs (d + 1) n = some v := by
  intro d
  induction d with
  | zero => intro n v h; cases h
  | succ d ih =>
    intro n v h
    rw [resolve] at h ⊢
    cases hf : bs.find? (fun b => b.CommandName = n) with
    | none => rw [hf] at h; cases h
    | some b =>
      rw [hf] at h
      exact BuilderFn.eval_mono _ _ ih b.fn v h

theorem resolve_mono {α : Type} (bs : List (Builder α)) (d e : Nat) (hde : d ≤ e)
    (n : String) (v : Value α) (h : resolve bs d n = some v) : resolve bs e n = some v := by
  induction e with
  | zero =>
    have : d = 0 := by omega
    rw [this] at h; exact h
  | succ e ih =>
    by_cases hd : d = e + 1
    · rw [hd] at h; exact h
    · exact resolve_succ bs e n v (ih (by omega))

/-- The reference recursion defines at most one value per name. -/
theorem resolve_unique {α : Type} (bs : List (Builder α)) (d e : Nat) (n : String)
    (v w : Value α) (hv : resolve bs d n = some v) (hw : resolve bs e n = some w) : v = w := by
  have h1 := resolve_mono bs d (max d e) (le_max_left d e) n v hv
  have h2 := resolve_mono bs e (max d e) (le_max_right d e) n w hw
  rw [h1] at h2
  exact Option.some.inj h2

theorem filter_of_find {α : Type} (bs : List (Builder α)) (n : String) (b : Builder α) :
    (bs.map builder.CommandName).Nodup →
    bs.find? (fun b => b.CommandName = n) = some b →
    bs.filter (fun b => b.CommandName = n) = [b] := by
  induction bs with
  | nil => intro _ h; cases h
  | cons x xs ih =>
    intro hnodup hfind
    rw [List.map_cons, List.nodup_cons] at hnodup
    by_cases hx : x.CommandName = n
    · have hxb : x = b := by simpa [List.find?_cons, hx] using hfind
      have hrest : xs.filter (fun b => b.CommandName = n) = [] := by
        rw [List.filter_eq_nil_iff]
        intro y hy hyn
        apply hnodup.1
        have : y.CommandName = x.CommandName := by
          rw [hx]; simpa using hyn
        rw [← this]
        exact List.mem_map_of_mem _ hy
      rw [List.filter_cons, hrest, ← hxb]
      simp [hx]
    · have hfind2 : xs.find? (fun b => b.CommandName = n) = some b := by
        simpa [List.find?_cons, hx] using hfind
      simp [List.filter_cons, hx, ih hnodup.2 hfind2]

theorem Assemble_single {α : Type} (bs : List (Builder α)) (n : String) (b : Builder α)
    (hnodup : (bs.map builder.CommandName).Nodup)
    (hfind : bs.find? (fun b => b.CommandName = n) = some b) :
    (Assemble bs).builders n = some [b] := by
  show (newBuildContext bs).builders n = _
  rw [newBuildContext_builders, filter_of_find bs n b hnodup hfind]
  simp

/-- Running a construction function whose reference value is defined at depth
`d`, against a provider that computes the reference recursion to depth `d`. -/
theorem resolve_run {α : Type} (bs : List (Builder α)) (d f : Nat)
    (hrec : ∀ (c : buildContext α) (n : String) (v : Value α),
      c.builders = (Assemble bs).builders → CacheAgrees bs c →
      (∀ s ∈ c.buildStack, resolve bs d s = none) → resolve bs d n = some v →
      (GetService f c n).out = .ok v ∧ CacheAgrees bs (GetService f c n).ctx)
    (fn : BuilderFn α) :
    ∀ (c : buildContext α) (v : Value α), c.builders = (Assemble bs).builders →
      CacheAgrees bs c → (∀ s ∈ c.buildStack, resolve bs d s = none) →
      fn.eval (resolve bs d) = some v →
      (fn.run (provider f) c).out = .ok (.ok v) ∧ CacheAgrees bs (fn.run (provider f) c).ctx := by
  induction fn with
  | ret v => intro c w _ hc _ hw; cases hw; exact ⟨rfl, hc⟩
  | fail err => intro c w _ _ _ hw; cases hw
  | abort pv => intro c w _ _ _ hw; cases hw
  | getServices m k _ => intro c w _ _ _ hw; cases hw
  | getService m k ih =>
    intro c v hreg hc hstack hv
    simp only [BuilderFn.eval] at hv
    cases hm : resolve bs d m with
    | none => rw [hm] at hv; cases hv
    | some w =>
      rw [hm] at hv
      obtain ⟨hout, hc1⟩ := hrec c m w hreg hc hstack hm
      have hfr := GetService_frame f c m
      have hreg1 : (GetService f c m).ctx.builders = (Assemble bs).builders := by
        rw [hfr.builders_eq]; exact hreg
      have hstack1 : ∀ s ∈ (GetService f c m).ctx.buildStack, resolve bs d s = none := by
        rw [hfr.stack_eq]; exact hstack
      have hk := ih w (GetService f c m).ctx v hreg1 hc1 hstack1 hv
      have hrun : (BuilderFn.getService m k).run (provider f) c =
          (GetService f c m).bind (fun v c1 => (k v).run (provider f) c1) := rfl
      rw [hrun, Res.bind_ok _ _ _ hout]
      exact hk

theorem resolve_find {α : Type} (bs : List (Builder α)) (d : Nat) (n : String) (v : Value α)
    (h : resolve bs (d + 1) n = some v) :
    ∃ b, bs.find? (fun b => b.CommandName = n) = some b ∧ b.fn.eval (resolve bs d) = some v := by
  rw [resolve] at h
  cases hf : bs.find? (fun b => b.CommandName = n) with
  | none => rw [hf] at h; cases h
  | some b => rw [hf] at h; exact ⟨b, rfl, h⟩

/-- In a context over the registry of `bs` whose cache agrees with the
reference recursion and whose stack holds no name resolvable at depth `d`,
`GetService` returns the value the reference recursion defines at depth `d`,
given a budget of at least `d`. -/
theorem resolve_GetService {α : Type} (bs : List (Builder α))
    (hnodup : (bs.map builder.CommandName).Nodup) :
    ∀ (d fuel : Nat) (c : buildContext α) (n : String) (v : Value α), d ≤ fuel →
      c.builders = (Assemble bs).builders → CacheAgrees bs c →
      (∀ s ∈ c.buildStack, resolve bs d s = none) → resolve bs d n = some v →
      (GetService fuel c n).out = .ok v ∧ CacheAgrees bs (GetService fuel c n).ctx := by
  intro d
  induction d with
  | zero => intro fuel c n v _ _ _ _ h; cases h
  | succ d ih =>
    intro fuel c n v hfuel hreg hc hstack hv
    have hstackd : ∀ s ∈ c.buildStack, resolve bs d s = none := by
      intro s hs
      cases hsd : resolve bs d s with
      | none => rfl
      | some w =>
        have := resolve_succ bs d s w hsd
        rw [hstack s hs] at this; cases this
    cases hnd : resolve bs d n with
    | some w =>
      have hwv : w = v := resolve_unique bs d (d + 1) n w v hnd hv
      rw [← hwv]
      exact ih fuel c n w (by omega) hreg hc hstackd hnd
    | none =>
      obtain ⟨f, rfl⟩ : ∃ f, fuel = f + 1 := ⟨fuel - 1, by omega⟩
      have hs : n ∉ c.buildStack := by
        intro hmem
        rw [hstack n hmem] at hv; cases hv
      cases hb : c.built n with
      | some w =>
        obtain ⟨e, he⟩ := hc n w hb
        have hwv : w = v := resolve_unique bs e (d + 1) n w v he hv
        rw [GetService_hit f c n w hs hb, hwv]
        exact ⟨rfl, hc⟩
      | none =>
        obtain ⟨b, hfind, heval⟩ := resolve_find bs d n v hv
        have hr : c.builders n = some [b] := by
          rw [hreg]; exact Assemble_single bs n b hnodup hfind
        have hstack1 : ∀ s ∈ (c.push n).buildStack, resolve bs d s = none := by
          intro s hmem
          simp only [buildContext.push, List.mem_append, List.mem_singleton] at hmem
          rcases hmem with h1 | h1
          · exact hstackd s h1
          · rw [h1]; exact hnd
        obtain ⟨hout, hc1⟩ := resolve_run bs d f
          (fun c1 n1 v1 h1 h2 h3 h4 => ih f c1 n1 v1 (by omega) h1 h2 h3 h4)
          b.fn (c.push n) v hreg hc hstack1 heval
        have hout1 : (b.Build (provider f) (c.push n)).out = .ok (.ok v) := hout
        rw [GetService_build_ok f c n b v hs hb hr hout1]
        refine ⟨rfl, ?_⟩
        intro m w hm
        by_cases hsh : b.Options.IsShared = true
        · simp only [hsh, if_true, buildContext.withStack, buildContext.store] at hm
          by_cases hmn : m = n
          · rw [if_pos hmn] at hm
            cases hm
            exact ⟨d + 1, hmn ▸ hv⟩
          · rw [if_neg hmn] at hm
            exact hc1 m w hm
        · simp only [hsh, Bool.false_eq_true, if_false, buildContext.withStack] at hm
          exact hc1 m w hm

theorem BuilderFn.eval_defined {α : Type} (allowed : String → Prop)
    (answer : String → Option (Value α)) (hans : ∀ m, allowed m → ∃ w, answer m = some w)
    (fn : BuilderFn α) (h : fn.CallsOnly allowed) : ∃ v, fn.eval answer = some v := by
  induction h with
  | ret v => exact ⟨v, rfl⟩
  | getService m k hm _ ih =>
    obtain ⟨w, hw⟩ := hans m hm
    obtain ⟨v, hv⟩ := ih w
    exact ⟨v, by simp only [BuilderFn.eval, hw]; exact hv⟩

/-- Under the static conditions (construction functions that always return a
value and request, through `GetService` only, registered names of lower
rank), the reference recursion defines a value for every registered name. -/
theorem resolve_defined {α : Type} (bs : List (Builder α)) (rank : String → Nat)
    (hfns : ∀ b ∈ bs, b.fn.CallsOnly
      (fun m => m ∈ bs.map builder.CommandName ∧ rank m < rank b.CommandName)) :
    ∀ (r : Nat) (n : String), rank n < r → n ∈ bs.map builder.CommandName →
      ∃ v, resolve bs (rank n + 1) n = some v := by
  intro r
  induction r with
  | zero => intro n hr _; omega
  | succ r ih =>
    intro n hr hn
    obtain ⟨b, hfind⟩ : ∃ b, bs.find? (fun b => b.CommandName = n) = some b := by
      cases hf : bs.find? (fun b => b.CommandName = n) with
      | some b => exact ⟨b, rfl⟩
      | none =>
        exfalso
        obtain ⟨x, hx, hxn⟩ := List.mem_map.mp hn
        have := List.find?_eq_none.mp hf x hx
        simp [hxn] at this
    have hbn : b.CommandName = n := by simpa using List.find?_some hfind
    have hcalls := hfns b (List.mem_of_find?_eq_some hfind)
    rw [hbn] at hcalls
    obtain ⟨v, hv⟩ := BuilderFn.eval_defined _ (resolve bs (rank n))
      (fun m hm => by
        obtain ⟨w, hw⟩ := ih m (by omega) hm.1
        exact ⟨w, resolve_mono bs (rank m + 1) (rank n) (by omega) m w hw⟩)
      b.fn hcalls
    exact ⟨v, by rw [resolve, hfind]; exact hv⟩

/-- C1. For every registry in which every name has exactly one builder:
(1) if the construction functions always return a value, request only
registered names, through `GetService`, and the requests descend along a rank
(the dependency relation is acyclic), then the reference recursion defines a
value `v` for every registered `root`, and `GetService(root)` on the fresh
assembly returns exactly `v` (a budget of `rank root + 1` nested calls is
enough); (2) more generally, whenever the reference recursion defines `v` for
`root` within some depth, `GetService(root)` on the fresh assembly returns
`v`. -/
theorem GetService_resolves {α : Type} (bs : List (Builder α)) (root : String)
    (hnodup : (bs.map builder.CommandName).Nodup) :
    (∀ rank : String → Nat,
      (∀ b ∈ bs, b.fn.CallsOnly
        (fun m => m ∈ bs.map builder.CommandName ∧ rank m < rank b.CommandName)) →
      root ∈ bs.map builder.CommandName →
      ∃ v, resolve bs (rank root + 1) root = some v ∧
        ∀ fuel, rank root + 1 ≤ fuel → (GetService fuel (Assemble bs) root).out = .ok v) ∧
    (∀ depth v, resolve bs depth root = some v →
      ∀ fuel, depth ≤ fuel → (GetService fuel (Assemble bs) root).out = .ok v) := by
  have hgen : ∀ depth v, resolve bs depth root = some v →
      ∀ fuel, depth ≤ fuel → (GetService fuel (Assemble bs) root).out = .ok v := by
    intro depth v hv fuel hfuel
    exact (resolve_GetService bs hnodup depth fuel (Assemble bs) root v hfuel rfl
      (fun m w hm => by cases hm) (fun s hs => by cases hs) hv).1
  refine ⟨?_, hgen⟩
  intro rank hfns hroot
  obtain ⟨v, hv⟩ := resolve_defined bs rank hfns (rank root + 1) root (by omega) hroot
  exact ⟨v, hv, hgen (rank root + 1) v hv⟩

theorem GetService_resolves_witness :
    ((testAssembleBuilders.map builder.CommandName).Nodup ∧
      resolve testAssembleBuilders 4 "controller" =
        some (.obj (.controllerImpl (.appServiceImpl
          (.domainServiceImpl .domainObjectAImpl .domainObjectBImpl)))) ∧
      domainResult (GetService 4 (Assemble testAssembleBuilders) "controller").out = some 5) ∧
    ((layeredBuilders.map builder.CommandName).Nodup ∧
      ∃ v, resolve layeredBuilders 2 "service" = some v ∧
        (GetService 2 (Assemble layeredBuilders) "service").out = .ok v) := by
  have h := (GetService_resolves testAssembleBuilders "controller" (by decide)).2 4
    (.obj (.controllerImpl (.appServiceImpl
      (.domainServiceImpl .domainObjectAImpl .domainObjectBImpl)))) rfl 4 (by decide)
  have hfns : ∀ b ∈ layeredBuilders, b.fn.CallsOnly
      (fun m => m ∈ layeredBuilders.map builder.CommandName ∧
        layeredRank m < layeredRank b.CommandName) := by
    intro b hb
    simp only [layeredBuilders, List.mem_cons, List.mem_singleton, List.not_mem_nil,
      or_false] at hb
    rcases hb with rfl | rfl
    · exact BuilderFn.CallsOnly.getService _ _ ⟨by decide, by decide⟩
        (fun v => BuilderFn.CallsOnly.ret _)
    · exact BuilderFn.CallsOnly.ret _
  obtain ⟨v, hv, hget⟩ := (GetService_resolves layeredBuilders "service" (by decide)).1
    layeredRank hfns (by decide)
  refine ⟨⟨by decide, rfl, ?_⟩, by decide, v, hv, hget 2 (by decide)⟩
  rw [h]
  rfl

/-! ### `CombineBuilders` and the builder factories -/

theorem setIndex_next {α : Type} (done : List (Builder α)) (k : Nat) (inner : Builder α) :
    setIndex (done.map some ++ List.replicate (k + 1) none) done.length inner =
      some ((done ++ [inner]).map some ++ List.replicate k none) := by
  unfold setIndex
  rw [if_pos (by simp)]
  rw [List.set_append_right _ _ (by simp)]
  simp [List.replicate_succ]

theorem copyInner_spec {α : Type} (outer : List (Builder α)) :
    ∀ (done : List (Builder α)) (k : Nat),
      copyInner outer (done.map some ++ List.replicate (outer.length + k) none, done.length) =
        some ((done ++ outer).map some ++ List.replicate k none,
          done.length + outer.length) := by
  induction outer with
  | nil => intro done k; simp [copyInner]
  | cons inner rest ih =>
    intro done k
    have hlen : (inner :: rest).length + k = (rest.length + k) + 1 := by
      simp only [List.length_cons]; omega
    rw [hlen, copyInner, setIndex_next]
    have := ih (done ++ [inner]) k
    simp only [List.length_append, List.length_singleton, List.append_assoc,
      List.singleton_append] at this
    simp only [this, List.length_cons]
    congr 2
    omega

theorem copyOuter_spec {α : Type} (builders : List (List (Builder α))) :
    ∀ (done : List (Builder α)) (k : Nat),
      copyOuter builders
          (done.map some ++ List.replicate (builders.flatten.length + k) none, done.length) =
        some ((done ++ builders.flatten).map some ++ List.replicate k none,
          done.length + builders.flatten.length) := by
  induction builders with
  | nil => intro done k; simp [copyOuter]
  | cons outer rest ih =>
    intro done k
    have hlen : (outer :: rest).flatten.length + k = outer.length + (rest.flatten.length + k) := by
      simp only [List.flatten_cons, List.length_append]; omega
    rw [hlen, copyOuter, copyInner_spec]
    have := ih (done ++ outer) k
    simp only [List.length_append, List.append_assoc] at this
    simp only [this, List.flatten_cons, List.length_append]
    congr 2
    omega

theorem foldl_count {α : Type} (builders : List (List (Builder α))) :
    ∀ count : Nat, builders.foldl (fun count outer => count + outer.length) count =
      count + builders.flatten.length := by
  induction builders with
  | nil => intro count; simp
  | cons outer rest ih =>
    intro count
    rw [List.foldl_cons, ih]
    simp only [List.flatten_cons, List.length_append]
    omega

/-- C11. For every sequence of builder lists (none, or empty ones, included),
`CombineBuilders` ends without an out-of-range write and returns the
concatenation of the lists, every element in its place and no element nil;
its length is the sum of the lengths. -/
theorem CombineBuilders_concat {α : Type} (builders : List (List (Builder α))) :
    CombineBuilders builders = some (builders.flatten.map some) ∧
    builders.flatten.length = (builders.map List.length).sum := by
  refine ⟨?_, List.length_flatten builders⟩
  unfold CombineBuilders
  rw [foldl_count, Nat.zero_add]
  have h := copyOuter_spec builders [] 0
  simp only [List.map_nil, List.nil_append, List.length_nil, Nat.add_zero, List.replicate_zero,
    List.append_nil, Nat.zero_add] at h
  rw [h]
  rfl

/-- C12. `NewBuilder(name, fn)` has `CommandName() = name`, is shared, and its
`Build` is `fn` applied to the provider; `NewBuilderWithOptions(name, fn,
opts)` has `CommandName() = name`, `Options() = opts`, and the same `Build`. -/
theorem NewBuilder_accessors {α : Type} (name : String) (fn : BuilderFn α)
    (opts : BuilderOptions) :
    (NewBuilder name fn).CommandName = name ∧
    (NewBuilder name fn).Options.IsShared = true ∧
    (∀ p c, (NewBuilder name fn).Build p c = fn.run p c) ∧
    (NewBuilderWithOptions name fn opts).CommandName = name ∧
    (NewBuilderWithOptions name fn opts).Options = opts ∧
    (∀ p c, (NewBuilderWithOptions name fn opts).Build p c = fn.run p c) :=
  ⟨rfl, rfl, fun _ _ => rfl, rfl, rfl, fun _ _ => rfl⟩

/-! ### The stack discipline -/

theorem GetService_eq_body {α : Type} (fuel : Nat) (c : buildContext α) (name : String) :
    GetService (fuel + 1) c name =
      if c.isInBuildStack name then ⟨.panic (c.panicCircular name), c, []⟩
      else deferPop (getServiceBody (provider fuel) (c.push name) name) := by
  rw [GetService]
  rfl

theorem GetServices_eq_body {α : Type} (fuel : Nat) (c : buildContext α) (name : String) :
    GetServices (fuel + 1) c name =
      if c.isInBuildStack name then ⟨.panic (c.panicCircular name), c, []⟩
      else deferPop (getServicesBody (provider fuel) (c.push name) name) := by
  rw [GetServices]
  rfl

theorem Res.bind_stack {α β γ : Type} (r : Res α β) (f : β → buildContext α → Res α γ)
    (S : List String) (h1 : r.ctx.buildStack = S) (h2 : ∀ v, (f v r.ctx).ctx.buildStack = S) :
    (r.bind f).ctx.buildStack = S := by
  unfold Res.bind
  cases hr : r.out with
  | ok v => exact h2 v
  | panic p => exact h1
  | outOfFuel => exact h1

/-- The statements between push and pop leave the stack as the push made it. -/
theorem getServiceBody_stack {α : Type} (fuel : Nat) (c : buildContext α) (name : String) :
    (getServiceBody (provider fuel) c name).ctx.buildStack = c.buildStack := by
  unfold getServiceBody
  split
  · rfl
  · split
    · rfl
    · split
      · rfl
      · split
        · rfl
        · rename_i x0 hbuilt x1 x2 b rest hreg hlen
          refine Res.bind_stack _ _ _ (Build_stack fuel b c) (fun r => ?_)
          cases r with
          | error e => exact Build_stack fuel b c
          | ok built =>
            by_cases hsh : b.Options.IsShared = true
            · simp only [hsh, if_true]; exact Build_stack fuel b c
            · simp only [hsh, Bool.false_eq_true, if_false]; exact Build_stack fuel b c

theorem buildEach_stack {α : Type} (fuel : Nat) (name : String) (bs : List (Builder α))
    (i : Nat) (c : buildContext α) :
    (buildEach (provider fuel) name i bs c).ctx.buildStack = c.buildStack :=
  (buildEach_frame (provider fuel) (provider_framed fuel) [] name (by simp) bs i c
    (by simp)).stack_eq

theorem getServicesBody_stack {α : Type} (fuel : Nat) (c : buildContext α) (name : String) :
    (getServicesBody (provider fuel) c name).ctx.buildStack = c.buildStack := by
  unfold getServicesBody
  split
  · rfl
  · rfl
  · split
    · rfl
    · rename_i x0 hbuilt x1 builders hreg
      exact Res.bind_stack _ _ _ (buildEach_stack fuel name builders 0 c)
        (fun r => buildEach_stack fuel name builders 0 c)

theorem BuilderFn.seen_stack {α : Type} (fuel : Nat) (fn : BuilderFn α) :
    ∀ (c : buildContext α), ∀ s ∈ fn.seen (provider fuel) c, s.buildStack = c.buildStack := by
  induction fn with
  | ret v => intro c s hs; simp [BuilderFn.seen] at hs; rw [hs]
  | fail err => intro c s hs; simp [BuilderFn.seen] at hs; rw [hs]
  | abort pv => intro c s hs; simp [BuilderFn.seen] at hs; rw [hs]
  | getService name k ih =>
    intro c s hs
    rw [BuilderFn.seen] at hs
    rcases List.mem_cons.mp hs with h | h
    · rw [h]
    · have hst : (GetService fuel c name).ctx.buildStack = c.buildStack :=
        (GetService_frame fuel c name).stack_eq
      cases hout : (GetService fuel c name).out with
      | ok v =>
        have hout1 : ((provider fuel).GetService c name).out = .ok v := hout
        rw [hout1] at h
        exact (ih v _ s h).trans hst
      | panic pv =>
        have hout1 : ((provider fuel).GetService c name).out = .panic pv := hout
        rw [hout1] at h; cases h
      | outOfFuel =>
        have hout1 : ((provider fuel).GetService c name).out = .outOfFuel := hout
        rw [hout1] at h; cases h
  | getServices name k ih =>
    intro c s hs
    rw [BuilderFn.seen] at hs
    rcases List.mem_cons.mp hs with h | h
    · rw [h]
    · have hst : (GetServices fuel c name).ctx.buildStack = c.buildStack :=
        (GetServices_frame fuel c name).stack_eq
      cases hout : (GetServices fuel c name).out with
      | ok v =>
        have hout1 : ((provider fuel).GetServices c name).out = .ok v := hout
        rw [hout1] at h
        exact (ih v _ s h).trans hst
      | panic pv =>
        have hout1 : ((provider fuel).GetServices c name).out = .panic pv := hout
        rw [hout1] at h; cases h
      | outOfFuel =>
        have hout1 : ((provider fuel).GetServices c name).out = .outOfFuel := hout
        rw [hout1] at h; cases h

theorem seenEach_stack {α : Type} (fuel : Nat) (bs : List (Builder α)) :
    ∀ (c : buildContext α), ∀ s ∈ seenEach (provider fuel) bs c,
      s.buildStack = c.buildStack := by
  induction bs with
  | nil => intro c s hs; cases hs
  | cons b rest ih =>
    intro c s hs
    simp only [seenEach, List.mem_append] at hs
    rcases hs with h | h
    · exact BuilderFn.seen_stack fuel b.fn c s h
    · exact (ih _ s h).trans (Build_stack fuel b c)

/-- C13. For every context, name and budget, whatever the outcome: the stack
after `GetService(name)` and after `GetServices(name)` is the stack before
the call; every context a construction function finds while it runs for the
call has the prior stack with `name` appended; and the deferred pop receives
a stack that ends with `name`, so it never acts on an empty stack. -/
theorem stack_discipline {α : Type} (fuel : Nat) (c : buildContext α) (name : String) :
    (GetService fuel c name).ctx.buildStack = c.buildStack ∧
    (GetServices fuel c name).ctx.buildStack = c.buildStack ∧
    (∀ b : Builder α, ∀ s ∈ b.fn.seen (provider fuel) (c.push name),
      s.buildStack = c.buildStack ++ [name]) ∧
    (∀ bs : List (Builder α), ∀ s ∈ seenEach (provider fuel) bs (c.push name),
      s.buildStack = c.buildStack ++ [name]) ∧
    (GetService (fuel + 1) c name =
        if c.isInBuildStack name then ⟨.panic (c.panicCircular name), c, []⟩
        else deferPop (getServiceBody (provider fuel) (c.push name) name)) ∧
    (getServiceBody (provider fuel) (c.push name) name).ctx.buildStack =
      c.buildStack ++ [name] ∧
    (GetServices (fuel + 1) c name =
        if c.isInBuildStack name then ⟨.panic (c.panicCircular name), c, []⟩
        else deferPop (getServicesBody (provider fuel) (c.push name) name)) ∧
    (getServicesBody (provider fuel) (c.push name) name).ctx.buildStack =
      c.buildStack ++ [name] :=
  ⟨(GetService_frame fuel c name).stack_eq, (GetServices_frame fuel c name).stack_eq,
    fun b s hs => BuilderFn.seen_stack fuel b.fn (c.push name) s hs,
    fun bs s hs => seenEach_stack fuel bs (c.push name) s hs,
    GetService_eq_body fuel c name, getServiceBody_stack fuel (c.push name) name,
    GetServices_eq_body fuel c name, getServicesBody_stack fuel (c.push name) name⟩

/-! ### Re-entering a name that is on the stack -/

theorem foldl_entries (sep : String) (stack : List String) :
    ∀ acc : String, stack.foldl (fun strBuilder dep => strBuilder ++ dep ++ sep) acc =
      (stack.map (fun dep => dep ++ sep)).foldl (fun r s => r ++ s) acc := by
  induction stack with
  | nil => intro acc; rfl
  | cons dep rest ih =>
    intro acc
    rw [List.foldl_cons, List.map_cons, List.foldl_cons, ih, String.append_assoc]

/-- The message of `panicCircular`, entry by entry: every stack entry followed
by `" > "`, then the offending name. -/
theorem circularMessage_entries (stack : List String) (name : String) :
    circularMessage stack name =
      "circular dependency detected: " ++
        (String.join (stack.map (fun dep => dep ++ " > ")) ++ name) := by
  unfold circularMessage String.join
  rw [foldl_entries]

/-- C14. For every context and every name that occurs on the dependency
stack, whether or not the cache has an entry for it, `GetService(name)` and
`GetServices(name)` both panic with "circular dependency detected: " followed
by every stack entry in order, each followed by " > ", followed by `name`;
no construction function is invoked and cache and stack are left as they
were. -/
theorem circular_dependency {α : Type} (fuel : Nat) (c : buildContext α) (name : String)
    (h : name ∈ c.buildStack) :
    GetService (fuel + 1) c name =
      ⟨.panic (.msg ("circular dependency detected: " ++
        (String.join (c.buildStack.map (fun dep => dep ++ " > ")) ++ name))), c, []⟩ ∧
    GetServices (fuel + 1) c name =
      ⟨.panic (.msg ("circular dependency detected: " ++
        (String.join (c.buildStack.map (fun dep => dep ++ " > ")) ++ name))), c, []⟩ := by
  rw [GetService_circular fuel c name h, GetServices_circular fuel c name h,
    circularMessage_entries]
  exact ⟨rfl, rfl⟩

theorem circular_dependency_witness :
    ((((Assemble cycleBuilders).store "A" (.obj .domainObjectAImpl)).push "A").push "B").built "A"
      = some (.obj .domainObjectAImpl) ∧
    (GetService 1
      ((((Assemble cycleBuilders).store "A" (.obj .domainObjectAImpl)).push "A").push "B")
      "A").out.panicValue = some (.msg "circular dependency detected: A > B > A") ∧
    (GetServices 1
      ((((Assemble cycleBuilders).store "A" (.obj .domainObjectAImpl)).push "A").push "B")
      "A").out.panicValue = some (.msg "circular dependency detected: A > B > A") := by
  have h := circular_dependency 0
    ((((Assemble cycleBuilders).store "A" (.obj .domainObjectAImpl)).push "A").push "B") "A"
    (by decide)
  refine ⟨rfl, ?_, ?_⟩
  · rw [h.1]; decide
  · rw [h.2]; decide

/-! ### A failed call leaves the cache entry of its name alone -/

theorem deferPop_built {α β : Type} (r : Res α β) : (deferPop r).ctx.built = r.ctx.built := by
  unfold deferPop
  split <;> rfl

theorem deferPop_out {α β : Type} (r : Res α β) (S : List String) (name : String)
    (h : r.ctx.buildStack = S ++ [name]) : (deferPop r).out = r.out := by
  rw [deferPop_eq r S name h]

theorem getServiceBody_atomic {α : Type} (fuel : Nat) (c : buildContext α) (name : String)
    (hn : name ∈ c.buildStack)
    (hfail : ∀ v, (getServiceBody (provider fuel) c name).out ≠ .ok v) :
    (getServiceBody (provider fuel) c name).ctx.built name = c.built name := by
  unfold getServiceBody at hfail ⊢
  split
  · rfl
  · split
    · rfl
    · split
      · rfl
      · split
        · rfl
        · rename_i x0 hbuilt x1 x2 b rest hreg hlen
          simp only [hbuilt, hreg, hlen, if_false] at hfail
          have hkeep : (invoke name 0 b (provider fuel) c).ctx.built name = c.built name :=
            (BuilderFn.run_frame (provider fuel) (provider_framed fuel) b.fn c).built_eq name hn
          cases hout : (invoke name 0 b (provider fuel) c).out with
          | ok r =>
            rw [Res.bind_ok _ _ _ hout] at hfail ⊢
            cases r with
            | error e => exact hkeep
            | ok v =>
              exfalso
              by_cases hsh : b.Options.IsShared = true
              · simp only [hsh, if_true] at hfail
                exact hfail v rfl
              · simp only [hsh, Bool.false_eq_true, if_false] at hfail
                exact hfail v rfl
          | panic pv => rw [Res.bind_panic _ _ _ hout]; exact hkeep
          | outOfFuel => rw [Res.bind_outOfFuel _ _ hout]; exact hkeep

theorem getServicesBody_atomic {α : Type} (fuel : Nat) (c : buildContext α) (name : String)
    (hn : name ∈ c.buildStack)
    (hfail : ∀ vs, (getServicesBody (provider fuel) c name).out ≠ .ok vs) :
    (getServicesBody (provider fuel) c name).ctx.built name = c.built name := by
  unfold getServicesBody at hfail ⊢
  split
  · rfl
  · rfl
  · split
    · rfl
    · rename_i x0 hbuilt x1 builders hreg
      simp only [hbuilt, hreg] at hfail
      have hkeep := buildEach_built_eq (provider fuel) (provider_framed fuel) name builders 0 c
        name hn
      cases hout : (buildEach (provider fuel) name 0 builders c).out with
      | ok vs =>
        rw [Res.bind_ok _ _ _ hout] at hfail
        exact absurd rfl (hfail vs)
      | panic pv => rw [Res.bind_panic _ _ _ hout]; exact hkeep
      | outOfFuel => rw [Res.bind_outOfFuel _ _ hout]; exact hkeep

/-- C16. For every context, name and budget: a call of `GetService(name)` or
`GetServices(name)` that does not return a value (it panics, for whatever
reason, or the budget runs out) leaves the cache entry of `name` as it was,
absent if it was absent; so `GetServices` caches no partly built sequence. -/
theorem failure_atomicity {α : Type} (fuel : Nat) (c : buildContext α) (name : String) :
    ((∀ v, (GetService fuel c name).out ≠ .ok v) →
      (GetService fuel c name).ctx.built name = c.built name) ∧
    ((∀ vs, (GetServices fuel c name).out ≠ .ok vs) →
      (GetServices fuel c name).ctx.built name = c.built name) := by
  cases fuel with
  | zero => exact ⟨fun _ => rfl, fun _ => rfl⟩
  | succ fuel =>
    by_cases hs : c.isInBuildStack name = true
    · rw [GetService_eq_body, GetServices_eq_body, if_pos hs, if_pos hs]
      exact ⟨fun _ => rfl, fun _ => rfl⟩
    · have hmem : name ∈ (c.push name).buildStack := by simp [buildContext.push]
      rw [GetService_eq_body, GetServices_eq_body, if_neg hs, if_neg hs]
      refine ⟨fun hfail => ?_, fun hfail => ?_⟩
      · rw [deferPop_built]
        rw [deferPop_out _ c.buildStack name (getServiceBody_stack fuel (c.push name) name)]
          at hfail
        exact getServiceBody_atomic fuel (c.push name) name hmem hfail
      · rw [deferPop_built]
        rw [deferPop_out _ c.buildStack name (getServicesBody_stack fuel (c.push name) name)]
          at hfail
        exact getServicesBody_atomic fuel (c.push name) name hmem hfail

theorem failure_atomicity_witness :
    (GetServices 1 (Assemble partlyFailingBuilders) "item").out.panicValue =
      some (.msg "failed to build service") ∧
    (GetServices 1 (Assemble partlyFailingBuilders) "item").log = [⟨"item", 0⟩, ⟨"item", 1⟩] ∧
    (GetServices 1 (Assemble partlyFailingBuilders) "item").ctx.built "item" = none ∧
    (GetService 1 (Assemble failingBuilders) "serviceA").ctx.built "serviceA" = none := by
  have h1 := (failure_atomicity 1 (Assemble partlyFailingBuilders) "item").2
    (fun vs h => by
      have h0 : (GetServices 1 (Assemble partlyFailingBuilders) "item").out.panicValue =
          some (.msg "failed to build service") := by decide
      rw [h] at h0
      cases h0)
  have h2 := (failure_atomicity 1 (Assemble failingBuilders) "serviceA").1
    (fun v h => by
      have h0 : (GetService 1 (Assemble failingBuilders) "serviceA").out.panicValue =
          some (.msg "failed to build service") := by decide
      rw [h] at h0
      cases h0)
  exact ⟨by decide, by decide, h1, h2⟩

/-! ### `GetServices` caches whatever the builders' options say -/

/-- A cache entry, once written, is found in every context that comes after. -/
theorem After.built_kept {α : Type} {c c2 : buildContext α} (h : After c c2) (name : String)
    (v : Value α) (hv : c.built name = some v) : c2.built name = some v := by
  induction h with
  | refl => exact hv
  | getService fuel c1 n _ ih => exact (GetService_frame fuel c1 n).built_mono name v ih
  | getServices fuel c1 n _ ih => exact (GetServices_frame fuel c1 n).built_mono name v ih
  | push c1 n _ ih => exact ih
  | store c1 n w _ hnone ih =>
    have hne : name ≠ n := by
      intro e
      rw [e, hnone] at ih
      cases ih
    simp [buildContext.store, hne, ih]
  | pop c1 _ ih => exact ih

theorem getServicesBody_ok_cached {α : Type} (fuel : Nat) (c : buildContext α)
    (name : String) (vs : List (Value α)) (hreg : c.builders name ≠ none)
    (hok : (getServicesBody (provider fuel) c name).out = .ok vs) :
    (getServicesBody (provider fuel) c name).ctx.built name = some (.slice vs) := by
  unfold getServicesBody at hok ⊢
  split
  · rename_i x0 items hbuilt
    simp only [hbuilt] at hok
    cases hok
    exact hbuilt
  · rename_i x0 a hbuilt
    simp only [hbuilt] at hok
    cases hok
  · split
    · rename_i x0 hbuilt x1 hnone
      exact absurd hnone hreg
    · rename_i x0 hbuilt x1 builders hsome
      simp only [hbuilt, hsome] at hok
      cases hout : (buildEach (provider fuel) name 0 builders c).out with
      | ok ws =>
        rw [Res.bind_ok _ _ _ hout] at hok ⊢
        cases hok
        simp [buildContext.store]
      | panic pv => rw [Res.bind_panic _ _ _ hout] at hok; cases hok
      | outOfFuel => rw [Res.bind_outOfFuel _ _ hout] at hok; cases hok

/-- A successful `GetServices` on a registered name leaves the returned
sequence in the cache. -/
theorem GetServices_ok_cached {α : Type} (c : buildContext α) (name : String) (fuel : Nat)
    (vs : List (Value α)) (hN : 1 ≤ (c.registered name).length)
    (hok : (GetServices fuel c name).out = .ok vs) :
    (GetServices fuel c name).ctx.built name = some (.slice vs) := by
  have hreg : (c.push name).builders name ≠ none := by
    intro hnone
    have : c.builders name = none := hnone
    simp [buildContext.registered, this] at hN
  cases fuel with
  | zero => rw [GetServices] at hok; cases hok
  | succ fuel =>
    by_cases hs : c.isInBuildStack name = true
    · rw [GetServices_eq_body, if_pos hs] at hok; cases hok
    · rw [GetServices_eq_body, if_neg hs] at hok ⊢
      rw [deferPop_out _ c.buildStack name (getServicesBody_stack fuel (c.push name) name)] at hok
      rw [deferPop_built]
      exact getServicesBody_ok_cached fuel (c.push name) name vs hreg hok

/-- C15. For every context and every name with at least one registered
builder, whatever the builders' `IsShared` options: after a `GetServices(name)`
that returned `vs`, the cache holds `vs` under `name`, and in every context
that comes after, with `name` off the stack, `GetServices(name)` returns `vs`
again, invokes no construction function and changes nothing. -/
theorem GetServices_caches_always {α : Type} (c : buildContext α) (name : String)
    (fuel : Nat) (vs : List (Value α)) (hN : 1 ≤ (c.registered name).length)
    (hok : (GetServices fuel c name).out = .ok vs) :
    (GetServices fuel c name).ctx.built name = some (.slice vs) ∧
    ∀ c2, After (GetServices fuel c name).ctx c2 → name ∉ c2.buildStack →
      ∀ fuel2, GetServices (fuel2 + 1) c2 name = ⟨.ok vs, c2, []⟩ := by
  have hcached := GetServices_ok_cached c name fuel vs hN hok
  exact ⟨hcached, fun c2 hafter hs fuel2 =>
    GetServices_hit fuel2 c2 name vs hs (hafter.built_kept name _ hcached)⟩

theorem GetServices_caches_always_witness :
    (GetServices 1 (Assemble nonSharedItems) "item").log = [⟨"item", 0⟩, ⟨"item", 1⟩] ∧
    (GetServices 1 (GetServices 1 (Assemble nonSharedItems) "item").ctx "item").out =
      .ok [.obj (.collectionItemImpl 2), .obj (.collectionItemImpl 3)] ∧
    (GetServices 1 (GetServices 1 (Assemble nonSharedItems) "item").ctx "item").log = [] := by
  have h := (GetServices_caches_always (Assemble nonSharedItems) "item" 1
    [.obj (.collectionItemImpl 2), .obj (.collectionItemImpl 3)] (by decide) rfl).2
    _ After.refl (by decide) 0
  exact ⟨by decide, by rw [h], by rw [h]⟩

/-! ### Reading a single-binding entry as a collection -/

/-- A successful `GetService` on a name whose single builder is shared was
made with the name off the stack and leaves the returned value in the cache. -/
theorem GetService_ok_cached {α : Type} (c : buildContext α) (name : String)
    (b : Builder α) (v : Value α) (fuel : Nat) (hr : c.builders name = some [b])
    (hsh : b.Options.IsShared = true) (hok : (GetService fuel c name).out = .ok v) :
    name ∉ c.buildStack ∧ (GetService fuel c name).ctx.built name = some v := by
  cases fuel with
  | zero => rw [GetService] at hok; cases hok
  | succ fuel =>
    by_cases hs : name ∈ c.buildStack
    · rw [GetService_circular fuel c name hs] at hok; cases hok
    · refine ⟨hs, ?_⟩
      cases hb : c.built name with
      | some w =>
        rw [GetService_hit fuel c name w hs hb] at hok ⊢
        cases hok
        exact hb
      | none =>
        cases hout : (b.Build (provider fuel) (c.push name)).out with
        | ok r =>
          cases r with
          | error e =>
            rw [GetService_build_error fuel c name b e hs hb hr hout] at hok; cases hok
          | ok w =>
            rw [GetService_build_ok fuel c name b w hs hb hr hout] at hok ⊢
            cases hok
            simp [hsh, buildContext.withStack, buildContext.store]
        | panic pv =>
          rw [GetService_build_panic fuel c name b pv hs hb hr hout] at hok; cases hok
        | outOfFuel =>
          rw [GetService_build_outOfFuel fuel c name b hs hb hr hout] at hok; cases hok

/-- C18. For every context and every name whose single registered builder is
shared: when `GetService(name)` has returned a value that is not a
`[]interface{}`, that value is the cache entry of `name`, and
`GetServices(name)` on the context the call left (where `name` is off the
stack) panics on the type assertion: it returns no collection, invokes no
construction function, and leaves cache and stack as they were. -/
theorem GetServices_cross_shape {α : Type} (c : buildContext α) (name : String)
    (b : Builder α) (a : α) (fuel fuel2 : Nat) (hr : c.builders name = some [b])
    (hsh : b.Options.IsShared = true) (hok : (GetService fuel c name).out = .ok (.obj a)) :
    (GetService fuel c name).ctx.built name = some (.obj a) ∧
    name ∉ (GetService fuel c name).ctx.buildStack ∧
    GetServices (fuel2 + 1) (GetService fuel c name).ctx name =
      ⟨.panic .typeAssertion, (GetService fuel c name).ctx, []⟩ := by
  obtain ⟨hs, hcached⟩ := GetService_ok_cached c name b (.obj a) fuel hr hsh hok
  have hs2 : name ∉ (GetService fuel c name).ctx.buildStack := by
    rw [(GetService_frame fuel c name).stack_eq]; exact hs
  exact ⟨hcached, hs2, GetServices_mismatch fuel2 _ name a hs2 hcached⟩

theorem GetServices_cross_shape_witness :
    (GetService 1 (Assemble testAssembleBuilders) "domainObjectA").out =
      .ok (.obj .domainObjectAImpl) ∧
    (GetServices 1 (GetService 1 (Assemble testAssembleBuilders) "domainObjectA").ctx
      "domainObjectA").out.panicValue = some .typeAssertion ∧
    (GetServices 1 (GetService 1 (Assemble testAssembleBuilders) "domainObjectA").ctx
      "domainObjectA").log = [] := by
  have h := (GetServices_cross_shape (Assemble testAssembleBuilders) "domainObjectA"
    (NewBuilder "domainObjectA" (.ret (.obj .domainObjectAImpl))) .domainObjectAImpl 1 0
    rfl rfl rfl).2.2
  exact ⟨rfl, by rw [h]; rfl, by rw [h]⟩

/-! ### The first builder of a registry entry -/

/-- C19. In every context that exists (the one `Assemble` returns, and those
calls of either method lead to), a registry entry is a non-empty sequence, and
a call of either method leaves the registry as it was. Hence an entry that
passed the "more than one" check of `GetService` has a first element, and on
a cache miss with the name off the stack `GetService` invokes the builder of
the name exactly when the entry has length 1. -/
theorem first_builder_in_range {α : Type} (c : buildContext α) (hc : Reachable c)
    (name : String) (l : List (Builder α)) (fuel : Nat) (hreg : c.builders name = some l) :
    l ≠ [] ∧
    (GetService fuel c name).ctx.builders = c.builders ∧
    (GetServices fuel c name).ctx.builders = c.builders ∧
    (l.length ≤ 1 → ∃ b, l = [b]) ∧
    (name ∉ c.buildStack → c.built name = none →
      ((GetService (fuel + 1) c name).log.head? = some ⟨name, 0⟩ ↔ l.length = 1)) := by
  have hne : l ≠ [] := hc.is_wellFormed.1 name l hreg
  have hone : l.length ≤ 1 → ∃ b, l = [b] := by
    intro hlen
    cases l with
    | nil => exact absurd rfl hne
    | cons b rest =>
      cases rest with
      | nil => exact ⟨b, rfl⟩
      | cons b2 rest2 => simp at hlen
  refine ⟨hne, (GetService_frame fuel c name).builders_eq,
    (GetServices_frame fuel c name).builders_eq, hone, ?_⟩
  intro hs hb
  constructor
  · intro hlog
    by_contra hlen
    have h2 : 1 < l.length := by
      have : l.length ≠ 0 := fun h0 => hne (List.length_eq_zero.mp h0)
      omega
    rw [GetService_ambiguous fuel c name l hs hb hreg h2] at hlog
    cases hlog
  · intro hlen
    obtain ⟨b, hb1⟩ := hone (le_of_eq hlen)
    rw [hb1] at hreg
    rw [GetService_build_log fuel c name b hs hb hreg]
    rfl

theorem first_builder_in_range_witness :
    (Assemble testCollectionBuilders).builders "collectionItem" ≠ some [] ∧
    (GetService 1 (Assemble testCollectionBuilders) "collectionItem").log = [] ∧
    (GetService 2 (Assemble testCollectionBuilders) "collectionUser").log.head? =
      some ⟨"collectionUser", 0⟩ := by
  have h1 := first_builder_in_range (Assemble testCollectionBuilders)
    (Reachable.assemble testCollectionBuilders) "collectionItem"
    [NewBuilder "collectionItem" (.ret (.obj (.collectionItemImpl 2))),
      NewBuilder "collectionItem" (.ret (.obj (.collectionItemImpl 3)))] 0 rfl
  have h2 := first_builder_in_range (Assemble testCollectionBuilders)
    (Reachable.assemble testCollectionBuilders) "collectionUser" _ 1 rfl
  refine ⟨?_, by decide, (h2.2.2.2.2 (by decide) rfl).mpr rfl⟩
  intro h
  rw [show (Assemble testCollectionBuilders).builders "collectionItem" = some
    [NewBuilder "collectionItem" (.ret (.obj (.collectionItemImpl 2))),
      NewBuilder "collectionItem" (.ret (.obj (.collectionItemImpl 3)))] from rfl] at h
  exact h1.1 (Option.some.inj h)

/-! ### The depth of the stack -/

theorem Assemble_absent {α : Type} (bs : List (Builder α)) (n : String)
    (hn : n ∉ bs.map builder.CommandName) : (Assemble bs).builders n = none := by
  have he : (bs.filter (fun b => b.CommandName = n)).isEmpty = true := by
    rw [List.isEmpty_iff, List.filter_eq_nil_iff]
    intro b hb hbn
    exact hn (List.mem_map.mpr ⟨b, hb, by simpa using hbn⟩)
  show (newBuildContext bs).builders n = _
  rw [newBuildContext_builders, he]
  simp

theorem Reachable.from_assemble {α : Type} {c : buildContext α} (h : Reachable c) :
    ∃ bs, c.builders = (Assemble bs).builders := by
  induction h with
  | assemble bs => exact ⟨bs, rfl⟩
  | getService fuel c name _ ih =>
    obtain ⟨bs, hbs⟩ := ih
    exact ⟨bs, (GetService_frame fuel c name).builders_eq.trans hbs⟩
  | getServices fuel c name _ ih =>
    obtain ⟨bs, hbs⟩ := ih
    exact ⟨bs, (GetServices_frame fuel c name).builders_eq.trans hbs⟩
  | enter c name _ _ _ _ ih => exact ih

/-- In a context that exists the stack holds no name twice and every name on
it has a registry entry. -/
theorem Reachable.stack_registered {α : Type} {c : buildContext α} (h : Reachable c) :
    c.buildStack.Nodup ∧ ∀ s ∈ c.buildStack, c.builders s ≠ none := by
  induction h with
  | assemble bs => exact ⟨List.nodup_nil, fun s hs => by cases hs⟩
  | getService fuel c name _ ih =>
    have hf := GetService_frame fuel c name
    rw [hf.stack_eq, hf.builders_eq]; exact ih
  | getServices fuel c name _ ih =>
    have hf := GetServices_frame fuel c name
    rw [hf.stack_eq, hf.builders_eq]; exact ih
  | enter c name _ hs _ hreg ih =>
    refine ⟨?_, ?_⟩
    · show (c.buildStack ++ [name]).Nodup
      rw [List.nodup_append]
      refine ⟨ih.1, List.nodup_singleton name, ?_⟩
      intro x hx hx2
      rw [List.mem_singleton] at hx2
      exact hs (hx2 ▸ hx)
    · intro s hmem
      rcases List.mem_append.mp hmem with h1 | h1
      · exact ih.2 s h1
      · rw [List.mem_singleton] at h1
        rw [h1]; exact hreg

theorem StackWithin.length_le {α : Type} {names : List String} {c : buildContext α}
    (h : StackWithin names c) : c.buildStack.length ≤ names.length :=
  (List.subperm_of_subset h.1 h.2.1).length_le

theorem StackWithin.frame {α : Type} {names : List String} {S : List String}
    {c c1 : buildContext α} {l : List Invocation} (h : StackWithin names c)
    (hf : FrameOn S c c1 l) : StackWithin names c1 := by
  unfold StackWithin
  rw [hf.stack_eq, hf.builders_eq]
  exact h

theorem StackWithin.push {α : Type} {names : List String} {c : buildContext α}
    (h : StackWithin names c) (name : String) (hs : name ∉ c.buildStack)
    (hreg : c.builders name ≠ none) : StackWithin names (c.push name) := by
  refine ⟨?_, ?_, h.2.2⟩
  · show (c.buildStack ++ [name]).Nodup
    rw [List.nodup_append]
    refine ⟨h.1, List.nodup_singleton name, ?_⟩
    intro x hx hx2
    rw [List.mem_singleton] at hx2
    exact hs (hx2 ▸ hx)
  · intro s hmem
    rcases List.mem_append.mp hmem with h1 | h1
    · exact h.2.1 s h1
    · rw [List.mem_singleton] at h1
      rw [h1]; exact h.2.2 name hreg

theorem Reachable.stackWithin {α : Type} {c : buildContext α} (h : Reachable c)
    (bs : List (Builder α)) (hbs : c.builders = (Assemble bs).builders) :
    StackWithin (bs.map builder.CommandName).dedup c := by
  have hreg : ∀ n, c.builders n ≠ none → n ∈ (bs.map builder.CommandName).dedup := by
    intro n hn
    rw [List.mem_dedup]
    by_contra hnot
    exact hn (by rw [hbs]; exact Assemble_absent bs n hnot)
  exact ⟨h.stack_registered.1, fun s hs => hreg s (h.stack_registered.2 s hs), hreg⟩

theorem Res.bind_in_budget {α β γ : Type} (r : Res α β) (f : β → buildContext α → Res α γ)
    (h1 : r.out ≠ .outOfFuel) (h2 : ∀ v, r.out = .ok v → (f v r.ctx).out ≠ .outOfFuel) :
    (r.bind f).out ≠ .outOfFuel := by
  cases hr : r.out with
  | ok v => rw [Res.bind_ok _ _ _ hr]; exact h2 v hr
  | panic pv => rw [Res.bind_panic _ _ _ hr]; intro h; cases h
  | outOfFuel => exact absurd hr h1

/-- A construction function run against a provider whose calls end within the
budget ends within the budget. -/
theorem run_in_budget {α : Type} (names : List String) (fuel : Nat)
    (hrec : ∀ (c : buildContext α) (name : String), StackWithin names c →
      names.length + 1 ≤ fuel + c.buildStack.length →
      (GetService fuel c name).out ≠ .outOfFuel ∧ (GetServices fuel c name).out ≠ .outOfFuel)
    (fn : BuilderFn α) :
    ∀ c : buildContext α, StackWithin names c →
      names.length + 1 ≤ fuel + c.buildStack.length →
      (fn.run (provider fuel) c).out ≠ .outOfFuel := by
  induction fn with
  | ret v => intro c _ _ h; cases h
  | fail err => intro c _ _ h; cases h
  | abort pv => intro c _ _ h; cases h
  | getService m k ih =>
    intro c hc hfuel
    have hf := GetService_frame fuel c m
    have hrun : (BuilderFn.getService m k).run (provider fuel) c =
        (GetService fuel c m).bind (fun v c1 => (k v).run (provider fuel) c1) := rfl
    rw [hrun]
    refine Res.bind_in_budget _ _ (hrec c m hc hfuel).1 (fun v _ => ?_)
    exact ih v _ (hc.frame hf) (by rw [hf.stack_eq]; exact hfuel)
  | getServices m k ih =>
    intro c hc hfuel
    have hf := GetServices_frame fuel c m
    have hrun : (BuilderFn.getServices m k).run (provider fuel) c =
        (GetServices fuel c m).bind (fun vs c1 => (k vs).run (provider fuel) c1) := rfl
    rw [hrun]
    refine Res.bind_in_budget _ _ (hrec c m hc hfuel).2 (fun vs _ => ?_)
    exact ih vs _ (hc.frame hf) (by rw [hf.stack_eq]; exact hfuel)

theorem buildEach_in_budget {α : Type} (names : List String) (fuel : Nat)
    (hrec : ∀ (c : buildContext α) (name : String), StackWithin names c →
      names.length + 1 ≤ fuel + c.buildStack.length →
      (GetService fuel c name).out ≠ .outOfFuel ∧ (GetServices fuel c name).out ≠ .outOfFuel)
    (name : String) (bs : List (Builder α)) :
    ∀ (i : Nat) (c : buildContext α), StackWithin names c →
      names.length + 1 ≤ fuel + c.buildStack.length →
      (buildEach (provider fuel) name i bs c).out ≠ .outOfFuel := by
  induction bs with
  | nil => intro i c _ _ h; cases h
  | cons b rest ih =>
    intro i c hc hfuel
    have hf := BuilderFn.run_frame (provider fuel) (provider_framed fuel) b.fn c
    unfold buildEach
    refine Res.bind_in_budget _ _ (run_in_budget names fuel hrec b.fn c hc hfuel) (fun r _ => ?_)
    cases r with
    | error e => intro h; cases h
    | ok built =>
      refine Res.bind_in_budget _ _ (ih (i + 1) _ (hc.frame hf) ?_) (fun vs _ h => by cases h)
      have : (invoke name i b (provider fuel) c).ctx.buildStack = c.buildStack := hf.stack_eq
      rw [this]; exact hfuel

/-- With the stack inside a list of `N` names that covers the registry, a
budget of `N + 1` nested calls, less the depth already reached, is never
exhausted. -/
theorem calls_in_budget {α : Type} (names : List String) :
    ∀ (fuel : Nat) (c : buildContext α) (name : String), StackWithin names c →
      names.length + 1 ≤ fuel + c.buildStack.length →
      (GetService fuel c name).out ≠ .outOfFuel ∧ (GetServices fuel c name).out ≠ .outOfFuel := by
  intro fuel
  induction fuel with
  | zero =>
    intro c name hc hfuel
    have := hc.length_le
    omega
  | succ fuel ih =>
    intro c name hc hfuel
    by_cases hs : c.isInBuildStack name = true
    · rw [GetService_eq_body, GetServices_eq_body, if_pos hs, if_pos hs]
      exact ⟨(fun h => by cases h), (fun h => by cases h)⟩
    · have hn : name ∉ c.buildStack := fun h => hs ((isInBuildStack_iff c name).mpr h)
      have hpush : c.builders name ≠ none → StackWithin names (c.push name) ∧
          names.length + 1 ≤ fuel + (c.push name).buildStack.length := by
        intro hreg
        refine ⟨hc.push name hn hreg, ?_⟩
        simp only [buildContext.push, List.length_append, List.length_singleton]
        omega
      rw [GetService_eq_body, GetServices_eq_body, if_neg hs, if_neg hs,
        deferPop_out _ c.buildStack name (getServiceBody_stack fuel (c.push name) name),
        deferPop_out _ c.buildStack name (getServicesBody_stack fuel (c.push name) name)]
      constructor
      · unfold getServiceBody
        split
        · intro h; cases h
        · split
          · intro h; cases h
          · split
            · intro h; cases h
            · split
              · intro h; cases h
              · rename_i x0 hbuilt x1 x2 b rest hreg hlen
                have hreg1 : c.builders name ≠ none := by
                  have : c.builders name = some (b :: rest) := hreg
                  rw [this]; simp
                obtain ⟨hc1, hfuel1⟩ := hpush hreg1
                refine Res.bind_in_budget _ _
                  (run_in_budget names fuel ih b.fn (c.push name) hc1 hfuel1) (fun r _ => ?_)
                cases r with
                | error e => intro h; cases h
                | ok built =>
                  by_cases hsh : b.Options.IsShared = true
                  · simp only [hsh, if_true]; intro h; cases h
                  · simp only [hsh, Bool.false_eq_true, if_false]; intro h; cases h
      · unfold getServicesBody
        split
        · intro h; cases h
        · intro h; cases h
        · split
          · intro h; cases h
          · rename_i x0 hbuilt x1 builders hreg
            have hreg1 : c.builders name ≠ none := by
              have : c.builders name = some builders := hreg
              rw [this]; simp
            obtain ⟨hc1, hfuel1⟩ := hpush hreg1
            exact Res.bind_in_budget _ _
              (buildEach_in_budget names fuel ih name builders 0 (c.push name) hc1 hfuel1)
              (fun vs _ h => by cases h)

/-- C17. In every state a context passes through, the dependency stack holds
no name twice and every entry except possibly the last has at least one
registered builder; so for the builder list `bs` the context was assembled
from, the stack is no longer than the number of distinct names of `bs` plus
one. Accordingly, on every context that exists, a call of either method ends
(in a value or a panic) within a budget of that many nested calls, less the
depth already reached. -/
theorem stack_bounded {α : Type} (c : buildContext α) (h : Visited c) :
    c.buildStack.Nodup ∧
    (∀ s ∈ c.buildStack.dropLast, 1 ≤ (c.registered s).length) ∧
    ∃ bs : List (Builder α), c.builders = (Assemble bs).builders ∧
      c.buildStack.length ≤ (bs.map builder.CommandName).dedup.length + 1 ∧
      (Reachable c → ∀ fuel name,
        (bs.map builder.CommandName).dedup.length + 1 ≤ fuel + c.buildStack.length →
        (GetService fuel c name).out ≠ .outOfFuel ∧
        (GetServices fuel c name).out ≠ .outOfFuel) := by
  have hcount : ∀ c1 : buildContext α, Reachable c1 → ∀ s, c1.builders s ≠ none →
      1 ≤ (c1.registered s).length := by
    intro c1 hc1 s hs
    cases hr : c1.builders s with
    | none => exact absurd hr hs
    | some l =>
      have hne := hc1.is_wellFormed.1 s l hr
      simp only [buildContext.registered, hr, Option.getD_some]
      exact List.length_pos.mpr hne
  cases h with
  | reachable _ hc =>
    obtain ⟨bs, hbs⟩ := hc.from_assemble
    have hw := hc.stackWithin bs hbs
    refine ⟨hw.1, ?_, bs, hbs, ?_, ?_⟩
    · intro s hs
      exact hcount c hc s (hc.stack_registered.2 s (List.mem_of_mem_dropLast hs))
    · have := hw.length_le
      omega
    · intro _ fuel name hfuel
      exact calls_in_budget _ fuel c name hw hfuel
  | pushed c0 name hc hs =>
    obtain ⟨bs, hbs⟩ := hc.from_assemble
    have hw := hc.stackWithin bs hbs
    have hdrop : (c0.push name).buildStack.dropLast = c0.buildStack := List.dropLast_concat
    refine ⟨?_, ?_, bs, hbs, ?_, ?_⟩
    · show (c0.buildStack ++ [name]).Nodup
      rw [List.nodup_append]
      refine ⟨hw.1, List.nodup_singleton name, ?_⟩
      intro x hx hx2
      rw [List.mem_singleton] at hx2
      exact hs (hx2 ▸ hx)
    · intro s hmem
      rw [hdrop] at hmem
      exact hcount c0 hc s (hc.stack_registered.2 s hmem)
    · have := hw.length_le
      simp only [buildContext.push, List.length_append, List.length_singleton]
      omega
    · intro hc1 fuel nm hfuel
      exact calls_in_budget _ fuel (c0.push name) nm (hc1.stackWithin bs hbs) hfuel

theorem stack_bounded_witness :
    ((Assemble cycleBuilders).push "A").buildStack.Nodup ∧
    ∃ bs : List (Builder TestObj), ((Assemble cycleBuilders).push "A").builders =
        (Assemble bs).builders ∧
      ((Assemble cycleBuilders).push "A").buildStack.length ≤
        (bs.map builder.CommandName).dedup.length + 1 := by
  obtain ⟨h1, _, bs, h2, h3, _⟩ := stack_bounded ((Assemble cycleBuilders).push "A")
    (Visited.pushed (Assemble cycleBuilders) "A" (Reachable.assemble cycleBuilders)
      (by decide))
  exact ⟨h1, bs, h2, h3⟩

end nanodi
